import Mathlib

/-!
Shallow embedding of the muhurat suggestion engine of the baby-name
repository (backend/app/services): the scoring module
(`muhurat/utils/scoring.py`), the Rahu-Kalam test (`muhurat/utils/kalam.py`),
the trait resolver and weight personalizer (`muhurat/utils/qualities.py`),
the configuration constants (`muhurat/config/settings.py`), the slot scanner
(`muhurat/engine/muhurat_engine.py`) and the claim-relevant parts of
`astrology/astrology_engine.py`.

Python floats that the code uses for angles, hours and fractions of years
are modelled exactly as rationals (`ℚ`); Python `int` is `ℤ`; Python
strings are `String`; a value that the code obtains with `dict.get` (which
may be `None`) is an `Option`.  The external Swiss-Ephemeris oracle
(planet longitudes, house cusps) and the geocoding / LLM oracles are
parameters of the embedded functions, exactly as the spec treats them.
-/

/-! ### Python numeric primitives -/

/-- Python's float modulo `x % y` (sign follows the divisor): for `y ≠ 0`
it is `x - y * ⌊x / y⌋`.  The sources only use it with positive `y`. -/
def pymod (x y : ℚ) : ℚ := x - y * ⌊x / y⌋

/-- Python 3's `round` to the nearest integer, ties going to the even
integer (banker's rounding), on an exact rational. -/
def pyround (q : ℚ) : ℤ :=
  if Int.fract q < 1/2 then ⌊q⌋
  else if 1/2 < Int.fract q then ⌊q⌋ + 1
  else if ⌊q⌋ % 2 = 0 then ⌊q⌋ else ⌊q⌋ + 1

theorem pymod_eq_mul_fract (x : ℚ) {y : ℚ} (hy : 0 < y) :
    pymod x y = y * Int.fract (x / y) := by
  unfold pymod Int.fract
  field_simp

theorem pymod_nonneg (x : ℚ) {y : ℚ} (hy : 0 < y) : 0 ≤ pymod x y := by
  have h := Int.fract_nonneg (x / y)
  rw [pymod_eq_mul_fract x hy]
  positivity

theorem pymod_lt (x : ℚ) {y : ℚ} (hy : 0 < y) : pymod x y < y := by
  have h := Int.fract_lt_one (x / y)
  rw [pymod_eq_mul_fract x hy]
  calc y * Int.fract (x / y) < y * 1 := by
        exact mul_lt_mul_of_pos_left h hy
    _ = y := mul_one y

theorem pymod_eq_self {x y : ℚ} (hy : 0 < y) (h0 : 0 ≤ x) (h1 : x < y) :
    pymod x y = x := by
  have hfloor : ⌊x / y⌋ = 0 := by
    rw [Int.floor_eq_zero_iff]
    constructor
    · positivity
    · rw [div_lt_one hy]; exact h1
  unfold pymod
  rw [hfloor]
  simp

theorem pymod_neg_eq {x y : ℚ} (hy : 0 < y) (h0 : -y ≤ x) (h1 : x < 0) :
    pymod x y = x + y := by
  have hfloor : ⌊x / y⌋ = -1 := by
    rw [Int.floor_eq_iff]
    constructor
    · rw [Int.cast_neg, Int.cast_one, neg_le, ← neg_div, div_le_one hy]
      linarith
    · push_cast
      have : x / y < 0 := div_neg_of_neg_of_pos h1 hy
      linarith
  unfold pymod
  rw [hfloor]
  push_cast
  ring

theorem pymod_add_int_mul (x : ℚ) {y : ℚ} (hy : 0 < y) (k : ℤ) :
    pymod (x + y * k) y = pymod x y := by
  unfold pymod
  have : (x + y * k) / y = x / y + k := by field_simp; ring
  rw [this, Int.floor_add_int]
  push_cast
  ring

theorem pyround_nonneg {q : ℚ} (h : 0 ≤ q) : 0 ≤ pyround q := by
  have hf : (0:ℤ) ≤ ⌊q⌋ := Int.floor_nonneg.2 h
  unfold pyround
  split
  · exact hf
  · split
    · omega
    · split <;> omega

theorem pyround_le {q : ℚ} {c : ℤ} (h : q ≤ c) : pyround q ≤ c := by
  have hf : ⌊q⌋ ≤ c := by
    have := Int.floor_le_floor h
    simpa using this
  rcases lt_or_eq_of_le hf with hlt | heq
  · unfold pyround
    split
    · omega
    · split
      · omega
      · split <;> omega
  · -- the floor equals the bound, so the fractional part must be 0
    have hq : q - ⌊q⌋ ≤ 0 := by
      rw [heq]; linarith
    have hfr : Int.fract q = 0 := by
      have h0 := Int.fract_nonneg q
      have : Int.fract q ≤ 0 := by
        unfold Int.fract
        exact hq
      linarith
    unfold pyround
    rw [hfr]
    norm_num
    exact hf

/-! ### settings.py : constant tables

Membership tests of Python `set` literals are modelled as membership in
the corresponding list of strings. -/

def TIME_SLOT_MINUTES : ℕ := 30

def DAY_START_HOUR : ℕ := 6

def DAY_END_HOUR : ℕ := 20

def HARD_CAP_MULTIPLIER : ℕ := 5

def SHUBHA_NAKSHATRAS : List String :=
  ["Rohini", "Mrigashira", "Punarvasu", "Pushya", "Hasta", "Anuradha",
   "Uttara Phalguni", "Uttara Ashadha", "Uttara Bhadrapada", "Revati"]

def BENEFIC_RASHIS : List String :=
  ["Vrishabha (Taurus)", "Karka (Cancer)", "Tula (Libra)", "Meena (Pisces)"]

def BENEFIC_TITHIS : List String :=
  ["Dvitiya", "Tritiya", "Panchami", "Shashthi", "Dashami", "Ekadashi",
   "Trayodashi", "Chaturdashi"]

def BENEFIC_YOGAS : List String :=
  ["Preeti", "Ayushman", "Saubhagya", "Shobhana", "Sukarma",
   "Dhriti", "Vriddhi", "Dhruva", "Harshana", "Vajra",
   "Siddhi", "Variyana", "Shiva", "Siddha", "Sadhya",
   "Shubha", "Shukla", "Brahma", "Indra"]

def BENEFIC_KARANAS : List String :=
  ["Bava", "Balava", "Kaulava", "Taitila", "Gara", "Vanija"]

def BENEFIC_LAGNAS : List String := BENEFIC_RASHIS

def BENEFIC_JUPITER_RASHIS : List String := BENEFIC_RASHIS

def BENEFIC_DASHA_LORDS : List String := ["Jupiter", "Venus", "Mercury", "Moon"]

/-- Model of `RAHU_KALAM`: weekday (0 = Monday .. 6 = Sunday) to `(start, end)` in
fractional hours; `none` models the `.get` default `(None, None)` for keys
outside the table (unreachable, since `weekday()` is always in `0..6`). -/
def RAHU_KALAM : ℕ → Option (ℚ × ℚ) := fun wd =>
  match wd with
  | 0 => some (15/2, 9)
  | 1 => some (15, 33/2)
  | 2 => some (12, 27/2)
  | 3 => some (27/2, 15)
  | 4 => some (21/2, 12)
  | 5 => some (9, 21/2)
  | 6 => some (33/2, 18)
  | _ => none

/-- The 19-key `WEIGHTS` dict of settings.py, as a typed record (every
consumer reads a fixed set of keys). -/
structure Weights where
  nakshatra : ℤ
  rashi : ℤ
  pada : ℤ
  tithi : ℤ
  yoga : ℤ
  karana : ℤ
  lagna : ℤ
  eighth_house : ℤ
  jupiter : ℤ
  dasha : ℤ
  parents_dasha : ℤ
  lagna_friendship : ℤ
  arrival_indicator : ℤ
  dasha_sandhi : ℤ
  jupiter_compensation : ℤ
  dasha_clash : ℤ
  ninth_house_strength : ℤ
  fourth_house_strength : ℤ
  baby_start_dasha : ℤ
deriving DecidableEq, Repr

/-- The default weight values of settings.py. -/
def WEIGHTS : Weights :=
  { nakshatra := 3, rashi := 2, pada := 1, tithi := 2, yoga := 2,
    karana := 1, lagna := 2, eighth_house := 2, jupiter := 2, dasha := 2,
    parents_dasha := 2, lagna_friendship := 3, arrival_indicator := 3,
    dasha_sandhi := 2, jupiter_compensation := 2, dasha_clash := 3,
    ninth_house_strength := 2, fourth_house_strength := 2,
    baby_start_dasha := 2 }

def TRAIT_OPTIONS : List String :=
  ["health", "intelligence", "wealth", "leadership", "spiritual",
   "creativity", "stability", "compassion", "courage"]

def TRAIT_PRIORITY_MULTIPLIERS : List ℤ := [3, 2, 1]

/-- Model of `TRAIT_WEIGHT_OVERRIDES.get(trait, {})` : per-trait weight deltas. -/
def TRAIT_WEIGHT_OVERRIDES : String → List (String × ℤ) := fun t =>
  match t with
  | "health" => [("lagna", 2), ("tithi", 1)]
  | "intelligence" => [("yoga", 2), ("nakshatra", 1)]
  | "wealth" => [("rashi", 2), ("karana", 1)]
  | "leadership" => [("lagna", 2), ("nakshatra", 1)]
  | "spiritual" => [("tithi", 2), ("yoga", 1)]
  | "creativity" => [("nakshatra", 1), ("rashi", 1)]
  | "stability" => [("rashi", 1), ("lagna", 1)]
  | "compassion" => [("nakshatra", 1), ("tithi", 1)]
  | "courage" => [("lagna", 2), ("karana", 1)]
  | _ => []

/-! ### astrology_engine.py : constants used by the claims -/

def NAKSHATRA_LIST : List String :=
  ["Ashwini", "Bharani", "Krittika", "Rohini", "Mrigashira",
   "Ardra", "Punarvasu", "Pushya", "Ashlesha",
   "Magha", "Purva Phalguni", "Uttara Phalguni",
   "Hasta", "Chitra", "Swati", "Vishakha",
   "Anuradha", "Jyeshtha", "Mula",
   "Purva Ashadha", "Uttara Ashadha", "Shravana",
   "Dhanishta", "Shatabhisha", "Purva Bhadrapada",
   "Uttara Bhadrapada", "Revati"]

/-- Model of `NAKSHATRA_SPAN = 13 + 1/3` degrees (exact rational model of the
Python float). -/
def NAKSHATRA_SPAN : ℚ := 13 + 1/3

/-- Vimshottari sequence: planet and period length in years. -/
def DASHA_SEQUENCE : List (String × ℚ) :=
  [("Ketu", 7), ("Venus", 20), ("Sun", 6), ("Moon", 10), ("Mars", 7),
   ("Rahu", 18), ("Jupiter", 16), ("Saturn", 19), ("Mercury", 17)]

def NAKSHATRA_LORDS : List String :=
  ["Ketu", "Venus", "Sun", "Moon", "Mars", "Rahu", "Jupiter", "Saturn",
   "Mercury",
   "Ketu", "Venus", "Sun", "Moon", "Mars", "Rahu", "Jupiter", "Saturn",
   "Mercury",
   "Ketu", "Venus", "Sun", "Moon", "Mars", "Rahu", "Jupiter", "Saturn",
   "Mercury"]

/-- Model of `PLANET_FRIENDS.get(planet, set())`. -/
def PLANET_FRIENDS : String → List String := fun p =>
  match p with
  | "Sun" => ["Moon", "Mars", "Jupiter"]
  | "Moon" => ["Sun", "Mercury"]
  | "Mars" => ["Sun", "Moon", "Jupiter"]
  | "Mercury" => ["Sun", "Venus"]
  | "Jupiter" => ["Sun", "Moon", "Mars"]
  | "Venus" => ["Mercury", "Saturn"]
  | "Saturn" => ["Mercury", "Venus"]
  | "Rahu" => ["Venus", "Saturn", "Mercury"]
  | "Ketu" => ["Mars", "Jupiter", "Sun"]
  | _ => []

/-! ### Data shapes passed between the engine and the scorer -/

/-- The per-parent dasha lords computed per candidate slot
(`parents_dasha` dict with keys `mother`/`father`, read with `.get`). -/
structure ParentsDasha where
  mother : Option String
  father : Option String
deriving DecidableEq, Repr

/-- The result of `calculate_parent_meta` for one parent, read with `.get`
by the scorer. -/
structure ParentMeta where
  fifth_lord : Option String
  ninth_lord : Option String
  jupiter_strong : Option Bool
deriving DecidableEq, Repr

/-- Model of `parents_meta` with the `mother` and `father` entries. -/
structure ParentsMeta where
  mother : ParentMeta
  father : ParentMeta
deriving DecidableEq, Repr

/-- The astro-factor dict produced by `calculate_astrology`, restricted to
the fields the scorer and the scanner read.  Fields that the code reads
with `astro.get(...)` (possibly absent) are `Option`s; fields read with
`astro[...]` are plain. -/
structure Astro where
  nakshatra : String
  pada : ℤ
  rashi : String
  tithi : String
  yoga : String
  karana : String
  lagna : String
  lagna_lord : String
  eighth_house_rashi : String
  jupiter_rashi : String
  jupiter_strong : Option Bool
  dasha_lord : String
  ninth_strength : Option ℤ
  fourth_strength : Option ℤ
  parents_dasha : Option ParentsDasha
deriving DecidableEq, Repr

/-- Python truthiness of an optional string: `None` and `""` are falsy. -/
def strTruthy : Option String → Bool := fun o =>
  match o with
  | none => false
  | some s => s ≠ ""

/-- Membership `o in S` where `o` may be `None` (then always false, since
the benefic tables contain only strings). -/
def optMem (o : Option String) (l : List String) : Bool :=
  match o with
  | none => false
  | some s => s ∈ l

/-! ### scoring.py -/

def score_nakshatra (nakshatra : String) (w : Weights) : ℤ :=
  if nakshatra ∈ SHUBHA_NAKSHATRAS then w.nakshatra else 0

def score_rashi (rashi : String) (w : Weights) : ℤ :=
  if rashi ∈ BENEFIC_RASHIS then w.rashi else 0

def score_pada (pada : ℤ) (w : Weights) : ℤ :=
  if pada = 1 ∨ pada = 4 then w.pada else 0

def score_tithi (tithi : String) (w : Weights) : ℤ :=
  if tithi ∈ BENEFIC_TITHIS then w.tithi else 0

def score_yoga (yoga : String) (w : Weights) : ℤ :=
  if yoga ∈ BENEFIC_YOGAS then w.yoga else 0

def score_karana (karana : String) (w : Weights) : ℤ :=
  if karana ∈ BENEFIC_KARANAS then w.karana else 0

def score_lagna (lagna : String) (w : Weights) : ℤ :=
  if lagna ∈ BENEFIC_LAGNAS then w.lagna else 0

def score_eighth_house (eighth_house_rashi : String) (w : Weights) : ℤ :=
  if eighth_house_rashi ∈ BENEFIC_LAGNAS then w.eighth_house else 0

def score_jupiter (jupiter_rashi : String) (w : Weights) : ℤ :=
  if jupiter_rashi ∈ BENEFIC_JUPITER_RASHIS then w.jupiter else 0

def score_dasha (dasha_lord : String) (w : Weights) : ℤ :=
  if dasha_lord ∈ BENEFIC_DASHA_LORDS then w.dasha else 0

def score_parents_dasha (parents_dasha : Option ParentsDasha) (w : Weights) : ℤ :=
  match parents_dasha with
  | none => 0
  | some pd =>
      if optMem pd.mother BENEFIC_DASHA_LORDS ∧
         optMem pd.father BENEFIC_DASHA_LORDS then w.parents_dasha else 0

def score_lagna_friendship (baby_lagna_lord : String)
    (parents_dasha : Option ParentsDasha) (w : Weights) : ℤ :=
  match parents_dasha with
  | none => 0
  | some pd =>
      if ¬ strTruthy pd.mother ∨ ¬ strTruthy pd.father then 0
      else
        if optMem pd.mother (PLANET_FRIENDS baby_lagna_lord) ∧
           optMem pd.father (PLANET_FRIENDS baby_lagna_lord) then
          w.lagna_friendship
        else 0

def score_arrival_indicator (parent_5th_lord parent_9th_lord : Option String)
    (parent_dasha : Option String) (w : Weights) : ℤ :=
  if ¬ strTruthy parent_dasha then 0
  else if parent_dasha = parent_5th_lord ∨ parent_dasha = parent_9th_lord then
    w.arrival_indicator
  else 0

/-- Placeholder in the source: returns 0 on every path. -/
def score_dasha_sandhi (parent_dasha : Option String) (w : Weights) : ℤ :=
  if ¬ strTruthy parent_dasha then 0
  else 0

def score_jupiter_compensation (parent_jupiter_strong baby_jupiter_strong :
    Option Bool) (w : Weights) : ℤ :=
  if parent_jupiter_strong = some false ∧ baby_jupiter_strong = some true then
    w.jupiter_compensation
  else 0

def score_dasha_clash (parent_dasha : Option String) (baby_start_dasha : String)
    (w : Weights) : ℤ :=
  if ¬ strTruthy parent_dasha ∨ baby_start_dasha = "" then 0
  else if (parent_dasha = some "Rahu" ∧ baby_start_dasha = "Ketu") ∨
          (parent_dasha = some "Ketu" ∧ baby_start_dasha = "Rahu") then
    -w.dasha_clash
  else 0

def score_house_strength (ninth_strength fourth_strength : ℤ) (w : Weights) : ℤ :=
  ninth_strength * w.ninth_house_strength +
    fourth_strength * w.fourth_house_strength

/-- Model of `NAKSHATRA_LORDS[NAKSHATRA_LIST.index(nakshatra)]`.  For a nakshatra
name outside the table Python raises `ValueError`; the total model returns
`""` there (every theorem about a valid factor set is unaffected, since the
27 table entries are all non-empty). -/
def baby_start_dasha_lord (nakshatra : String) : String :=
  NAKSHATRA_LORDS.getD (NAKSHATRA_LIST.indexOf nakshatra) ""

def max_possible (w : Weights) : ℤ :=
  w.nakshatra + w.rashi + w.pada + w.tithi + w.yoga + w.karana + w.lagna +
    w.eighth_house + w.jupiter + w.dasha + w.parents_dasha +
    w.lagna_friendship + w.arrival_indicator * 2 +
    w.jupiter_compensation * 2 + w.dasha_clash * 2 +
    w.ninth_house_strength + w.fourth_house_strength + w.baby_start_dasha

/-- The `mother` entry of `astro.get("parents_dasha") or {}` read with
`.get("mother")`. -/
def pd_mother (pd : Option ParentsDasha) : Option String :=
  match pd with
  | none => none
  | some p => p.mother

def pd_father (pd : Option ParentsDasha) : Option String :=
  match pd with
  | none => none
  | some p => p.father

/-- Model of `compute_score(astro, parents_meta, weights)` of scoring.py.
`round(raw / max_score * 100)` is modelled exactly on rationals with
Python's banker's rounding. -/
def compute_score (astro : Astro) (parents_meta : Option ParentsMeta)
    (w : Weights) : ℤ :=
  let raw0 :=
    score_nakshatra astro.nakshatra w + score_rashi astro.rashi w +
    score_pada astro.pada w + score_tithi astro.tithi w +
    score_yoga astro.yoga w + score_karana astro.karana w +
    score_lagna astro.lagna w +
    score_eighth_house astro.eighth_house_rashi w +
    score_jupiter astro.jupiter_rashi w + score_dasha astro.dasha_lord w +
    score_parents_dasha astro.parents_dasha w
  let baby_start := baby_start_dasha_lord astro.nakshatra
  let raw1 :=
    match parents_meta with
    | none => raw0
    | some pm =>
        raw0 +
        score_lagna_friendship astro.lagna_lord astro.parents_dasha w +
        score_arrival_indicator pm.mother.fifth_lord pm.mother.ninth_lord
          (pd_mother astro.parents_dasha) w +
        score_arrival_indicator pm.father.fifth_lord pm.father.ninth_lord
          (pd_father astro.parents_dasha) w +
        score_dasha_clash (pd_mother astro.parents_dasha) baby_start w +
        score_dasha_clash (pd_father astro.parents_dasha) baby_start w +
        score_jupiter_compensation pm.mother.jupiter_strong
          astro.jupiter_strong w +
        score_jupiter_compensation pm.father.jupiter_strong
          astro.jupiter_strong w
  let raw2 := raw1 +
    score_house_strength (astro.ninth_strength.getD 0)
      (astro.fourth_strength.getD 0) w
  let raw3 := raw2 + (if baby_start ≠ "" then w.baby_start_dasha else 0)
  let max_score := max_possible w
  if max_score ≤ 0 then 0
  else pyround ((raw3 : ℚ) / (max_score : ℚ) * 100)

/-! ### kalam.py -/

/-- Model of `is_rahu_kalam(local_dt)`.  The local datetime is represented by its
date (a serial day number whose residue mod 7 is Python's `weekday()`,
0 = Monday) and its local hour and minute.  The code's test is
`start <= hour + minute/60 <= end`. -/
def is_rahu_kalam (date hour minute : ℕ) : Bool :=
  let weekday := date % 7
  match RAHU_KALAM weekday with
  | none => false
  | some se =>
      let hourval : ℚ := (hour : ℚ) + (minute : ℚ) / 60
      decide (se.1 ≤ hourval ∧ hourval ≤ se.2)

/-! ### qualities.py -/

/-- Loop body of `_unique_ordered`: keep an item if it is truthy (non-empty)
and not yet seen. -/
def unique_ordered_aux (seen : List String) : List String → List String
  | [] => []
  | x :: rest =>
      if x ≠ "" ∧ x ∉ seen then x :: unique_ordered_aux (x :: seen) rest
      else unique_ordered_aux seen rest

def unique_ordered (items : List String) : List String :=
  unique_ordered_aux [] items

/-- Model of `normalize_traits`: `None` (and `[]`) give `[]`; otherwise dedupe then
keep only canonical traits. -/
def normalize_traits (traits : Option (List String)) : List String :=
  match traits with
  | none => []
  | some ts => (unique_ordered ts).filter (fun t => t ∈ TRAIT_OPTIONS)

/-- Model of `llm_map_traits(text)`: the OpenAI call is an external oracle.  Every
failure path of the source (no API key, blank text, import failure, API
error, bad JSON) returns `[]`, and the success path returns
`normalize_traits` of the parsed list; the oracle outcome is the
parameter. -/
def llm_map_traits (oracle_out : Option (List String)) : List String :=
  match oracle_out with
  | none => []
  | some ts => normalize_traits (some ts)

/-- Model of `resolve_traits(qualities_text, qualities_selected, qualities_priority)`;
the free text only feeds the LLM oracle, whose outcome is `llm_oracle`. -/
def resolve_traits (llm_oracle : Option (List String))
    (qualities_selected qualities_priority : Option (List String)) :
    List String :=
  let priority := normalize_traits qualities_priority
  if priority ≠ [] then priority
  else unique_ordered (llm_map_traits llm_oracle ++
    normalize_traits qualities_selected)

/-- Model of `weights[k] = weights.get(k, 0) + v * multiplier` on the typed weight
record.  The overrides table only ever touches the six keys below, all
present in `WEIGHTS`, so the dict-update is a record update. -/
def add_weight (w : Weights) (k : String) (d : ℤ) : Weights :=
  match k with
  | "nakshatra" => { w with nakshatra := w.nakshatra + d }
  | "rashi" => { w with rashi := w.rashi + d }
  | "tithi" => { w with tithi := w.tithi + d }
  | "yoga" => { w with yoga := w.yoga + d }
  | "karana" => { w with karana := w.karana + d }
  | "lagna" => { w with lagna := w.lagna + d }
  | _ => w

/-- Model of `apply_trait_weights` viewed as a pure function on the typed record
(the engine's use).  `traits_ordered[:3]` with `multiplier =
TRAIT_PRIORITY_MULTIPLIERS[idx]` is the zip with `[3, 2, 1]`. -/
def apply_trait_weights_w (base : Weights) (traits_ordered : List String) :
    Weights :=
  (traits_ordered.zip TRAIT_PRIORITY_MULTIPLIERS).foldl
    (fun w tm =>
      (TRAIT_WEIGHT_OVERRIDES tm.1).foldl
        (fun w2 kv => add_weight w2 kv.1 (kv.2 * tm.2)) w)
    base

def get_weights_for_traits_w (traits_ordered : List String) : Weights :=
  apply_trait_weights_w WEIGHTS traits_ordered

/-! #### Reference-level model of `apply_trait_weights` (for the
no-mutation claim).  A Python dict value is an insertion-ordered
association list; dict objects live on a heap addressed by references, so
mutation of the fresh copy and preservation of the shared base table are
observable. -/

/-- A Python dict of weights: insertion-ordered key/value pairs. -/
abbrev WeightDict := List (String × ℤ)

/-- Model of `d.get(k, default)`. -/
def dict_get (d : WeightDict) (k : String) (default : ℤ) : ℤ :=
  match List.find? (fun kv => kv.1 = k) d with
  | some kv => kv.2
  | none => default

/-- Model of `d[k] = v`: update in place if the key exists, else append (Python
dicts preserve insertion order). -/
def dict_set : WeightDict → String → ℤ → WeightDict
  | [], k, v => [(k, v)]
  | kv :: rest, k, v =>
      if kv.1 = k then (k, v) :: rest else kv :: dict_set rest k v

/-- The heap of dict objects; a reference is an index. -/
abbrev DictHeap := List WeightDict

def heap_read (h : DictHeap) (r : ℕ) : WeightDict := h.getD r []

def heap_write (h : DictHeap) (r : ℕ) (d : WeightDict) : DictHeap := h.set r d

/-- Model of `apply_trait_weights(base_weights, traits_ordered)` at the heap level:
`weights = dict(base_weights)` allocates a fresh dict (reference
`h.length`), the loop mutates only that fresh dict, and the function
returns the heap after the call together with the fresh reference. -/
def apply_trait_weights (h : DictHeap) (base_ref : ℕ)
    (traits_ordered : List String) : DictHeap × ℕ :=
  let wref := h.length
  let h1 := h ++ [heap_read h base_ref]
  let h2 := (traits_ordered.zip TRAIT_PRIORITY_MULTIPLIERS).foldl
    (fun hh tm =>
      (TRAIT_WEIGHT_OVERRIDES tm.1).foldl
        (fun hh2 kv =>
          heap_write hh2 wref
            (dict_set (heap_read hh2 wref) kv.1
              (dict_get (heap_read hh2 wref) kv.1 0 + kv.2 * tm.2)))
        hh)
    h1
  (h2, wref)

/-- The global `WEIGHTS` dict as stored on the heap. -/
def WEIGHTS_DICT : WeightDict :=
  [("nakshatra", 3), ("rashi", 2), ("pada", 1), ("tithi", 2), ("yoga", 2),
   ("karana", 1), ("lagna", 2), ("eighth_house", 2), ("jupiter", 2),
   ("dasha", 2), ("parents_dasha", 2), ("lagna_friendship", 3),
   ("arrival_indicator", 3), ("dasha_sandhi", 2),
   ("jupiter_compensation", 2), ("dasha_clash", 3),
   ("ninth_house_strength", 2), ("fourth_house_strength", 2),
   ("baby_start_dasha", 2)]

/-- Model of `get_weights_for_traits(traits_ordered)` =
`apply_trait_weights(WEIGHTS, traits_ordered)` where `weights_ref` is the
heap reference holding the global `WEIGHTS` table. -/
def get_weights_for_traits (h : DictHeap) (weights_ref : ℕ)
    (traits_ordered : List String) : DictHeap × ℕ :=
  apply_trait_weights h weights_ref traits_ordered

/-- Model of `TRAIT_FILTERS.get(primary, [])`. -/
def TRAIT_FILTERS : String → List (String × List String) := fun t =>
  match t with
  | "health" => [("lagna", BENEFIC_LAGNAS), ("tithi", BENEFIC_TITHIS)]
  | "intelligence" => [("yoga", BENEFIC_YOGAS), ("nakshatra", SHUBHA_NAKSHATRAS)]
  | "wealth" => [("rashi", BENEFIC_RASHIS), ("karana", BENEFIC_KARANAS)]
  | "leadership" => [("lagna", BENEFIC_LAGNAS), ("nakshatra", SHUBHA_NAKSHATRAS)]
  | "spiritual" => [("tithi", BENEFIC_TITHIS), ("yoga", BENEFIC_YOGAS)]
  | "creativity" => [("nakshatra", SHUBHA_NAKSHATRAS)]
  | "stability" => [("rashi", BENEFIC_RASHIS), ("lagna", BENEFIC_LAGNAS)]
  | "compassion" => [("tithi", BENEFIC_TITHIS), ("nakshatra", SHUBHA_NAKSHATRAS)]
  | "courage" => [("lagna", BENEFIC_LAGNAS), ("karana", BENEFIC_KARANAS)]
  | _ => []

/-- Model of `astro.get(field)` for the field names that occur in `TRAIT_FILTERS`. -/
def astro_get (a : Astro) (field : String) : Option String :=
  match field with
  | "nakshatra" => some a.nakshatra
  | "rashi" => some a.rashi
  | "tithi" => some a.tithi
  | "yoga" => some a.yoga
  | "karana" => some a.karana
  | "lagna" => some a.lagna
  | _ => none

/-- Model of `passes_trait_filters(astro, traits_ordered)`: every check of the
primary trait must find the field's value inside the allowed set
(`astro.get(field) not in allowed` rejects, and `None` is never in an
allowed set). -/
def passes_trait_filters (a : Astro) (traits_ordered : List String) : Bool :=
  match traits_ordered with
  | [] => true
  | primary :: _ =>
      (TRAIT_FILTERS primary).all fun fc => optMem (astro_get a fc.1) fc.2

/-! ### astrology_engine.py : nakshatra index, dasha timeline, houses -/

/-- Model of `int(moon_longitude / NAKSHATRA_SPAN)`.  Python `int()` truncates
toward zero; on the callers' domain `moon_longitude ∈ [0, 360)` the
quotient is nonnegative, where truncation is the floor. -/
def get_nakshatra_index (moon_longitude : ℚ) : ℕ :=
  (⌊moon_longitude / NAKSHATRA_SPAN⌋).toNat

def dasha_name (i : Fin 9) : String := (DASHA_SEQUENCE.getD i.1 ("", 0)).1

def dasha_years (i : Fin 9) : ℚ := (DASHA_SEQUENCE.getD i.1 ("", 0)).2

theorem six_le_dasha_years : ∀ i : Fin 9, 6 ≤ dasha_years i := by decide

/-- The `while True` walk of `get_dasha_lord`: subtract period lengths,
cycling through the 9-entry sequence, until the elapsed years fit inside
the current period.  Each step removes at least 6 years, which bounds the
number of iterations. -/
def dasha_loop (years_elapsed : ℚ) (idx : Fin 9) : String :=
  if h : years_elapsed < dasha_years idx then dasha_name idx
  else dasha_loop (years_elapsed - dasha_years idx) (idx + 1)
termination_by (⌊years_elapsed / 6⌋).toNat
decreasing_by
  have hd : 6 ≤ dasha_years idx := six_le_dasha_years idx
  have hy : 6 ≤ years_elapsed := le_trans hd (not_lt.1 h)
  have h1 : (1 : ℤ) ≤ ⌊years_elapsed / 6⌋ := by
    rw [Int.le_floor]
    push_cast
    rw [le_div_iff (by norm_num : (0:ℚ) < 6)]
    linarith
  have h2 : ⌊(years_elapsed - dasha_years idx) / 6⌋ ≤ ⌊years_elapsed / 6⌋ - 1 := by
    have hstep : (years_elapsed - dasha_years idx) / 6 ≤ years_elapsed / 6 - 1 := by
      rw [div_le_iff (by norm_num : (0:ℚ) < 6)] at *
      ring_nf
      ring_nf at h1
      nlinarith [hd]
    calc ⌊(years_elapsed - dasha_years idx) / 6⌋
        ≤ ⌊years_elapsed / 6 - 1⌋ := Int.floor_le_floor hstep
      _ = ⌊years_elapsed / 6⌋ - 1 := by
          rw [show (1 : ℚ) = ((1 : ℤ) : ℚ) by norm_num, Int.floor_sub_int]
  omega

/-- Model of `get_dasha_lord(birth_dt_utc, target_dt_utc)`.  `moon_lon` is the
ephemeris oracle's moon longitude at birth; `years_between` is
`(target - birth).total_seconds() / (365.25*24*3600)`.  For a moon
longitude outside `[0, 360)` the Python `seq.index` would raise; the total
model returns the walk from a zero-length period instead (the claims only
concern the valid domain). -/
def get_dasha_lord (moon_lon : ℚ) (years_between : ℚ) : String :=
  let nak_idx := get_nakshatra_index moon_lon
  let lord := NAKSHATRA_LORDS.getD nak_idx ""
  let remainder := pymod moon_lon NAKSHATRA_SPAN
  let fraction_left := (NAKSHATRA_SPAN - remainder) / NAKSHATRA_SPAN
  let seq := DASHA_SEQUENCE.map (fun x => x.1)
  let start_idx := seq.indexOf lord
  let start_years := (DASHA_SEQUENCE.getD start_idx ("", 0)).2 * fraction_left
  let years_elapsed := if years_between < 0 then 0 else years_between
  if years_elapsed < start_years then lord
  else
    dasha_loop (years_elapsed - start_years)
      ⟨(start_idx + 1) % DASHA_SEQUENCE.length, by
        have h9 : DASHA_SEQUENCE.length = 9 := by decide
        rw [h9]
        omega⟩

/-- Python `x % 360.0`. -/
def wrap360 (x : ℚ) : ℚ := pymod x 360

/-- One iteration of the `house_for_longitude` loop: the in-arc test for
`start <= end` is `start <= lon < end`, otherwise (wrap-around)
`lon >= start or lon < end`. -/
def cusp_arc_test (s e lon : ℚ) : Bool :=
  if s ≤ e then decide (s ≤ lon ∧ lon < e)
  else decide (s ≤ lon ∨ lon < e)

/-- Model of `house_for_longitude(cusps, lon)` over the 12 house cusps
(`cusps i` is the 1-indexed `cusps[i+1]` of the Python list; the
successor of cusp 12 is cusp 1, which is the cyclic `i + 1` on `Fin 12`).
Returns the first house index `i+1 ∈ 1..12` whose arc contains
`lon % 360`, and 1 if none matches. -/
def house_for_longitude (cusps : Fin 12 → ℚ) (lon : ℚ) : ℕ :=
  let lonw := wrap360 lon
  match (List.finRange 12).find?
      (fun i => cusp_arc_test (wrap360 (cusps i)) (wrap360 (cusps (i + 1)))
        lonw) with
  | some i => i.1 + 1
  | none => 1

/-! ### muhurat_engine.py : the slot scanner

Dates are serial day numbers (one unit per calendar day, residue mod 7 =
Python `weekday()`, 0 = Monday); this is an order- and weekday-preserving
renaming of ISO date strings, so candidate dates compare exactly as their
`date.isoformat()` strings do in the Python sort.  A time of day is the
pair (hour, minute); zero-padded `"HH:MM"` strings compare exactly like
these pairs ordered lexicographically.  `calculate_astrology` at the
(once-resolved) request location is the opaque ephemeris-backed oracle
`ℕ → ℕ → ℕ → Astro` (date, hour, minute); per-slot parent dasha lords
(`calculate_dasha_lord_for_birth` of both parents at the slot's UTC
instant) are the oracle of an optional `parents` argument. -/

/-- Everything `_run_scan` closes over: the per-request state of
`suggest_muhurats` after location/parents resolution. -/
structure ScanCtx where
  oracle : ℕ → ℕ → ℕ → Astro
  parents : Option (ParentsMeta × (ℕ → ℕ → ℕ → ParentsDasha))
  traits : List String
  weights : Weights
  hard_cap : ℕ

/-- Model of `_date_range(sd, ed)`: all days from `sd` to `ed` inclusive (empty if
`ed < sd`). -/
def date_range (sd ed : ℕ) : List ℕ :=
  if ed < sd then [] else List.range' sd (ed - sd + 1)

/-- The (hour, minute) pairs of one scanned day: hours
`DAY_START_HOUR .. DAY_END_HOUR`, minutes `range(0, 60, TIME_SLOT_MINUTES)`,
with the loop `break` that stops the minute loop past `DAY_END_HOUR:00`. -/
def day_slots : List (ℕ × ℕ) :=
  (List.range' DAY_START_HOUR (DAY_END_HOUR - DAY_START_HOUR + 1)).flatMap
    fun hour =>
      (((List.range (60 / TIME_SLOT_MINUTES)).map
          (fun k => k * TIME_SLOT_MINUTES)).takeWhile
        (fun minute => ¬ (hour = DAY_END_HOUR ∧ 0 < minute))).map
        (fun minute => (hour, minute))

/-- All slots of a scan in chronological order: dates ascending, then
hour, then minute. -/
def slot_list (sd ed : ℕ) : List (ℕ × ℕ × ℕ) :=
  (date_range sd ed).flatMap fun d => day_slots.map fun hm => (d, hm.1, hm.2)

/-- The astro factors the scanner attaches to a slot:
`astro = calculate_astrology(...)` followed by
`astro["parents_dasha"] = parents_dasha` (which is `None` when no parents
were given). -/
def astro_at (ctx : ScanCtx) (d hour minute : ℕ) : Astro :=
  let a := ctx.oracle d hour minute
  { a with parents_dasha := ctx.parents.map fun p => p.2 d hour minute }

/-- Model of `compute_score(astro, parents_meta, weights)` for a slot. -/
def slot_score (ctx : ScanCtx) (d hour minute : ℕ) : ℤ :=
  compute_score (astro_at ctx d hour minute) (ctx.parents.map fun p => p.1)
    ctx.weights

/-- One retained candidate: the result dict of `_run_scan` (its factor
fields are the fields of `astro`, kept whole here) plus date, time and
score. -/
structure Cand where
  date : ℕ
  hour : ℕ
  minute : ℕ
  astro : Astro
  score : ℤ
deriving DecidableEq, Repr

/-- The dedup key tuple of `_run_scan`. -/
structure Sig where
  date : ℕ
  nakshatra : String
  pada : ℤ
  rashi : String
  tithi : String
  yoga : String
  karana : String
  lagna : String
  eighth_house_rashi : String
  jupiter_rashi : String
  dasha_lord : String
deriving DecidableEq, Repr

def sig_of (c : Cand) : Sig :=
  { date := c.date, nakshatra := c.astro.nakshatra, pada := c.astro.pada,
    rashi := c.astro.rashi, tithi := c.astro.tithi, yoga := c.astro.yoga,
    karana := c.astro.karana, lagna := c.astro.lagna,
    eighth_house_rashi := c.astro.eighth_house_rashi,
    jupiter_rashi := c.astro.jupiter_rashi,
    dasha_lord := c.astro.dasha_lord }

def mk_cand (ctx : ScanCtx) (s : ℕ × ℕ × ℕ) : Cand :=
  { date := s.1, hour := s.2.1, minute := s.2.2,
    astro := astro_at ctx s.1 s.2.1 s.2.2,
    score := slot_score ctx s.1 s.2.1 s.2.2 }

/-- The three per-slot `continue` filters of `_run_scan` (they do not
depend on the accumulated results): not Rahu Kalam; in strict mode with
non-empty traits, the primary trait's filters; score at least
`min_score`. -/
def pass_slot (ctx : ScanCtx) (strict_filters : Bool) (min_score : ℤ)
    (s : ℕ × ℕ × ℕ) : Bool :=
  ¬ is_rahu_kalam s.1 s.2.1 s.2.2 ∧
  ¬ (strict_filters ∧ ctx.traits ≠ [] ∧
      ¬ passes_trait_filters (astro_at ctx s.1 s.2.1 s.2.2) ctx.traits) ∧
  ¬ (slot_score ctx s.1 s.2.1 s.2.2 < min_score)

/-- The slot loop of `_run_scan`: per slot, apply the filters, skip a
candidate whose dedup key was already seen (`seen_keys` is exactly the key
set of `results`), append otherwise, and stop the whole nest once
`hard_cap` results are collected (the triple `break`). -/
def scan_go (ctx : ScanCtx) (strict_filters : Bool) (min_score : ℤ) :
    List (ℕ × ℕ × ℕ) → List Cand → List Cand
  | [], results => results
  | s :: rest, results =>
      if ctx.hard_cap ≤ results.length then results
      else if ¬ pass_slot ctx strict_filters min_score s then
        scan_go ctx strict_filters min_score rest results
      else if sig_of (mk_cand ctx s) ∈ results.map sig_of then
        scan_go ctx strict_filters min_score rest results
      else
        scan_go ctx strict_filters min_score rest
          (results ++ [mk_cand ctx s])

/-- Model of `_run_scan(strict_filters, min_score)`. -/
def run_scan (ctx : ScanCtx) (strict_filters : Bool) (min_score : ℤ)
    (sd ed : ℕ) : List Cand :=
  scan_go ctx strict_filters min_score (slot_list sd ed) []

/-- The Python sort key `(-score, date, time)` compared lexicographically:
a linear order on candidates up to key equality. -/
def sort_key (c : Cand) : ℤ ×ₗ (ℕ ×ₗ (ℕ ×ₗ ℕ)) :=
  toLex (-c.score, toLex (c.date, toLex (c.hour, c.minute)))

def sort_key_le (a b : Cand) : Bool := decide (sort_key a ≤ sort_key b)

/-- Model of `results.sort(key=...)` : Python's stable sort by the key. -/
def sort_results (results : List Cand) : List Cand :=
  results.mergeSort sort_key_le

/-- Model of `suggest_muhurats`.  Arguments:
`llm_oracle` is the outcome of the LLM trait-mapping oracle on
`qualities_text`; `oracle` is `calculate_astrology` at the once-resolved
request location; `parents` is `None` or the pair of the two parents'
precomputed `calculate_parent_meta` results and their per-slot dasha
oracle.  Returns `Except` for the two `ValueError`s of the range
validation. -/
def suggest_muhurats (start_date end_date : ℕ) (max_results : ℕ)
    (oracle : ℕ → ℕ → ℕ → Astro)
    (llm_oracle : Option (List String))
    (qualities_selected qualities_priority : Option (List String))
    (parents : Option (ParentsMeta × (ℕ → ℕ → ℕ → ParentsDasha))) :
    Except String (List Cand × List String × Weights) :=
  if end_date < start_date then .error "end_date must be >= start_date"
  else if 365 < end_date - start_date then
    .error "date range must be <= 365 days"
  else
    let traits := resolve_traits llm_oracle qualities_selected
      qualities_priority
    let weights := get_weights_for_traits_w traits
    let hard_cap := max 50 (max_results * HARD_CAP_MULTIPLIER)
    let ctx : ScanCtx :=
      { oracle := oracle, parents := parents, traits := traits,
        weights := weights, hard_cap := hard_cap }
    let strict := run_scan ctx true 10 start_date end_date
    let results := if strict = [] then run_scan ctx false 0 start_date end_date
      else strict
    .ok ((sort_results results).take max_results, traits, weights)

/-! ### Derived definitions used by the statements -/

/-- The raw (un-normalized) score accumulated by `compute_score` before
the division by `_max_possible` — the same let-chain as `compute_score`
without the final normalization step. -/
def compute_raw (astro : Astro) (parents_meta : Option ParentsMeta)
    (w : Weights) : ℤ :=
  let raw0 :=
    score_nakshatra astro.nakshatra w + score_rashi astro.rashi w +
    score_pada astro.pada w + score_tithi astro.tithi w +
    score_yoga astro.yoga w + score_karana astro.karana w +
    score_lagna astro.lagna w +
    score_eighth_house astro.eighth_house_rashi w +
    score_jupiter astro.jupiter_rashi w + score_dasha astro.dasha_lord w +
    score_parents_dasha astro.parents_dasha w
  let baby_start := baby_start_dasha_lord astro.nakshatra
  let raw1 :=
    match parents_meta with
    | none => raw0
    | some pm =>
        raw0 +
        score_lagna_friendship astro.lagna_lord astro.parents_dasha w +
        score_arrival_indicator pm.mother.fifth_lord pm.mother.ninth_lord
          (pd_mother astro.parents_dasha) w +
        score_arrival_indicator pm.father.fifth_lord pm.father.ninth_lord
          (pd_father astro.parents_dasha) w +
        score_dasha_clash (pd_mother astro.parents_dasha) baby_start w +
        score_dasha_clash (pd_father astro.parents_dasha) baby_start w +
        score_jupiter_compensation pm.mother.jupiter_strong
          astro.jupiter_strong w +
        score_jupiter_compensation pm.father.jupiter_strong
          astro.jupiter_strong w
  let raw2 := raw1 +
    score_house_strength (astro.ninth_strength.getD 0)
      (astro.fourth_strength.getD 0) w
  raw2 + (if baby_start ≠ "" then w.baby_start_dasha else 0)

/-- Reference form of the dedup-with-cap loop: `scan_go` over the slots
that pass the per-slot filters.  `acc.map sig_of` plays the role of
`seen_keys` (a key is added exactly when a result is appended). -/
def dedup_cap (cap : ℕ) : List Cand → List Cand → List Cand
  | [], results => results
  | c :: rest, results =>
      if cap ≤ results.length then results
      else if sig_of c ∈ results.map sig_of then dedup_cap cap rest results
      else dedup_cap cap rest (results ++ [c])

/-- The candidates of the passing slots of a scan, in chronological
order (before deduplication and the hard cap). -/
def scan_pass_list (ctx : ScanCtx) (strict_filters : Bool) (min_score : ℤ)
    (sd ed : ℕ) : List Cand :=
  ((slot_list sd ed).filter (pass_slot ctx strict_filters min_score)).map
    (mk_cand ctx)

/-- The all-zero weight table. -/
def zero_weights : Weights :=
  { nakshatra := 0, rashi := 0, pada := 0, tithi := 0, yoga := 0,
    karana := 0, lagna := 0, eighth_house := 0, jupiter := 0, dasha := 0,
    parents_dasha := 0, lagna_friendship := 0, arrival_indicator := 0,
    dasha_sandhi := 0, jupiter_compensation := 0, dasha_clash := 0,
    ninth_house_strength := 0, fourth_house_strength := 0,
    baby_start_dasha := 0 }

/-- A weight table as the data model describes it: every entry a
non-negative integer. -/
def NonnegWeights (w : Weights) : Prop :=
  0 ≤ w.nakshatra ∧ 0 ≤ w.rashi ∧ 0 ≤ w.pada ∧ 0 ≤ w.tithi ∧
  0 ≤ w.yoga ∧ 0 ≤ w.karana ∧ 0 ≤ w.lagna ∧ 0 ≤ w.eighth_house ∧
  0 ≤ w.jupiter ∧ 0 ≤ w.dasha ∧ 0 ≤ w.parents_dasha ∧
  0 ≤ w.lagna_friendship ∧ 0 ≤ w.arrival_indicator ∧
  0 ≤ w.dasha_sandhi ∧ 0 ≤ w.jupiter_compensation ∧ 0 ≤ w.dasha_clash ∧
  0 ≤ w.ninth_house_strength ∧ 0 ≤ w.fourth_house_strength ∧
  0 ≤ w.baby_start_dasha

instance (w : Weights) : Decidable (NonnegWeights w) := by
  unfold NonnegWeights
  infer_instance

/-- The ordering the spec asks of the ranked output: score strictly
descending, and among equal scores date then time ascending. -/
def rank_order (a b : Cand) : Prop :=
  b.score < a.score ∨
    (a.score = b.score ∧
      (a.date < b.date ∨
        (a.date = b.date ∧
          (a.hour < b.hour ∨ (a.hour = b.hour ∧ a.minute ≤ b.minute)))))

/-- Half-open arc membership on the 360-degree circle, measured from `s`
toward increasing longitude: `x ∈ [s, e)` going around the circle.  This
is the spec's reading of "the planet's longitude falls in
`[cusp[i], cusp[i+1])` with wraparound at 360°". -/
def arc_mem (s e x : ℚ) : Prop := wrap360 (x - s) < wrap360 (e - s)

/-- A 12-cusp ring: every cusp in `[0, 360)` and the cusps in strictly
increasing circular order starting from cusp 1. -/
def IsCuspRing (cusps : Fin 12 → ℚ) : Prop :=
  (∀ i, 0 ≤ cusps i ∧ cusps i < 360) ∧
  ∀ i j : Fin 12, i < j →
    wrap360 (cusps i - cusps 0) < wrap360 (cusps j - cusps 0)

instance (cusps : Fin 12 → ℚ) : Decidable (IsCuspRing cusps) := by
  unfold IsCuspRing
  infer_instance

instance (s e x : ℚ) : Decidable (arc_mem s e x) := by
  unfold arc_mem
  infer_instance

/-! ### Concrete data for the witnesses -/

/-- A factor set whose fields all lie in the benefic tables
(`ninth_strength = 1`). -/
def astro_benefic : Astro :=
  { nakshatra := "Rohini", pada := 1, rashi := "Karka (Cancer)",
    tithi := "Dvitiya", yoga := "Preeti", karana := "Bava",
    lagna := "Karka (Cancer)", lagna_lord := "Moon",
    eighth_house_rashi := "Tula (Libra)", jupiter_rashi := "Meena (Pisces)",
    jupiter_strong := some true, dasha_lord := "Jupiter",
    ninth_strength := some 1, fourth_strength := some 0,
    parents_dasha := none }

/-- The same factor set with an extreme ninth-house strength count. -/
def astro_overflow : Astro :=
  { astro_benefic with ninth_strength := some 30 }

/-- A scan context over a constant ephemeris oracle, no parents, no
traits, default weights, the default hard cap. -/
def ctx_benefic : ScanCtx :=
  { oracle := fun _ _ _ => astro_benefic, parents := none, traits := [],
    weights := WEIGHTS, hard_cap := 50 }

/-- The candidate the benefic scenario retains: day 0 (a Monday) at
06:00, score 50. -/
def cand_benefic : Cand :=
  { date := 0, hour := 6, minute := 0, astro := astro_benefic, score := 50 }

/-- A concrete 12-cusp ring starting at 0°. -/
def cusps_w : Fin 12 → ℚ := fun i => 30 * (i.1 : ℚ)

/-- The scan context `suggest_muhurats` builds for a request (after trait
resolution, weight personalization and the hard-cap computation). -/
def suggest_ctx (max_results : ℕ) (oracle : ℕ → ℕ → ℕ → Astro)
    (llm_oracle : Option (List String))
    (qualities_selected qualities_priority : Option (List String))
    (parents : Option (ParentsMeta × (ℕ → ℕ → ℕ → ParentsDasha))) :
    ScanCtx :=
  { oracle := oracle, parents := parents,
    traits := resolve_traits llm_oracle qualities_selected qualities_priority,
    weights := get_weights_for_traits_w
      (resolve_traits llm_oracle qualities_selected qualities_priority),
    hard_cap := max 50 (max_results * HARD_CAP_MULTIPLIER) }

/-- The candidate list `suggest_muhurats` ranks: the strict scan when it
is non-empty, otherwise the relaxed scan. -/
def collected_candidates (start_date end_date max_results : ℕ)
    (oracle : ℕ → ℕ → ℕ → Astro) (llm_oracle : Option (List String))
    (qualities_selected qualities_priority : Option (List String))
    (parents : Option (ParentsMeta × (ℕ → ℕ → ℕ → ParentsDasha))) :
    List Cand :=
  if run_scan (suggest_ctx max_results oracle llm_oracle qualities_selected
      qualities_priority parents) true 10 start_date end_date = []
  then run_scan (suggest_ctx max_results oracle llm_oracle qualities_selected
    qualities_priority parents) false 0 start_date end_date
  else run_scan (suggest_ctx max_results oracle llm_oracle qualities_selected
    qualities_priority parents) true 10 start_date end_date

/-! ### Helper lemmas -/

set_option maxRecDepth 10000

/-- Concrete evaluation of a one-day strict scan over the benefic constant
oracle: all 29 slots carry the same signature, so exactly the first
non-Rahu-Kalam slot (Monday 06:00) is retained, with score 50. -/
theorem run_scan_benefic_eval :
    run_scan ctx_benefic true 10 0 0 = [cand_benefic] := by
  with_unfolding_all decide

theorem cand_benefic_mem : cand_benefic ∈ run_scan ctx_benefic true 10 0 0 := by
  rw [run_scan_benefic_eval]
  exact List.mem_singleton_self _

/-! #### qualities helper lemmas -/

theorem unique_ordered_aux_spec :
    ∀ (items seen : List String),
      (unique_ordered_aux seen items).Nodup ∧
      ∀ x ∈ unique_ordered_aux seen items, x ∉ seen ∧ x ∈ items := by
  intro items
  induction items with
  | nil => intro seen; simp [unique_ordered_aux]
  | cons x rest ih =>
      intro seen
      unfold unique_ordered_aux
      split
      · rename_i hcond
        obtain ⟨ihnd, ihmem⟩ := ih (x :: seen)
        constructor
        · refine List.Nodup.cons ?_ ihnd
          intro hx
          exact (ihmem x hx).1 (List.mem_cons_self x seen)
        · intro y hy
          rcases List.mem_cons.1 hy with hyx | hy'
          · subst hyx
            exact ⟨hcond.2, List.mem_cons_self _ _⟩
          · obtain ⟨hns, hin⟩ := ihmem y hy'
            exact ⟨fun hs => hns (List.mem_cons_of_mem _ hs),
              List.mem_cons_of_mem _ hin⟩
      · obtain ⟨ihnd, ihmem⟩ := ih seen
        refine ⟨ihnd, fun y hy => ?_⟩
        obtain ⟨hns, hin⟩ := ihmem y hy
        exact ⟨hns, List.mem_cons_of_mem _ hin⟩

theorem unique_ordered_nodup (items : List String) :
    (unique_ordered items).Nodup :=
  (unique_ordered_aux_spec items []).1

theorem unique_ordered_subset {x : String} {items : List String}
    (h : x ∈ unique_ordered items) : x ∈ items :=
  ((unique_ordered_aux_spec items []).2 x h).2

theorem normalize_traits_nodup (o : Option (List String)) :
    (normalize_traits o).Nodup := by
  cases o with
  | none => simp [normalize_traits]
  | some ts => exact (unique_ordered_nodup ts).filter _

theorem normalize_traits_mem {t : String} {o : Option (List String)}
    (h : t ∈ normalize_traits o) : t ∈ TRAIT_OPTIONS := by
  cases o with
  | none => simp [normalize_traits] at h
  | some ts =>
      unfold normalize_traits at h
      have := List.mem_filter.1 h
      simpa using this.2

/-! #### heap-model helper lemmas -/

theorem set_append_len {α : Type} (l : List α) (a b : α) :
    (l ++ [a]).set l.length b = l ++ [b] := by
  induction l with
  | nil => rfl
  | cons x t ih => simp [List.set, ih]

theorem getD_append_left {α : Type} (l l' : List α) (d : α) (n : ℕ)
    (h : n < l.length) : (l ++ l').getD n d = l.getD n d := by
  unfold List.getD
  rw [List.get?_append h]

/-- Any fold of writes to the fresh reference `h.length` keeps the heap of
the shape `h ++ [w]`. -/
theorem fold_write_shape {β : Type} (h : DictHeap)
    (f : DictHeap → β → WeightDict) :
    ∀ (l : List β) (w : WeightDict),
      ∃ w', l.foldl (fun hh x => heap_write hh h.length (f hh x)) (h ++ [w]) =
        h ++ [w'] := by
  intro l
  induction l with
  | nil => intro w; exact ⟨w, rfl⟩
  | cons x t ih =>
      intro w
      have hw : heap_write (h ++ [w]) h.length (f (h ++ [w]) x) =
          h ++ [f (h ++ [w]) x] := set_append_len h w _
      simpa [hw] using ih (f (h ++ [w]) x)

/-! ### Claim C10 -/

/-- C10: the `dasha_sandhi` factor never contributes: `score_dasha_sandhi`
returns 0 on every input, and `compute_score` is invariant under changing
the `dasha_sandhi` weight alone (it never reads it, and `_max_possible`
omits it). -/
theorem dasha_sandhi_inert :
    (∀ (pd : Option String) (w : Weights), score_dasha_sandhi pd w = 0) ∧
    (∀ (astro : Astro) (pm : Option ParentsMeta) (w : Weights) (x : ℤ),
      compute_score astro pm { w with dasha_sandhi := x } =
        compute_score astro pm w) := by
  constructor
  · intro pd w
    unfold score_dasha_sandhi
    split <;> rfl
  · intro astro pm w x
    rfl

/-! ### Claim C6 -/

/-- C6 counterexample: a priority list of four valid traits is returned
verbatim by `resolve_traits`, so the result is not capped at 3. -/
theorem resolve_traits_four :
    resolve_traits none none
        (some ["health", "intelligence", "wealth", "leadership"]) =
      ["health", "intelligence", "wealth", "leadership"] ∧
    ¬ (resolve_traits none none
        (some ["health", "intelligence", "wealth", "leadership"])).length ≤ 3 := by
  constructor
  · rfl
  · decide

/-- C6 (amended): `resolve_traits` always returns an ordered list of
distinct trait names drawn from the fixed set of 9 canonical traits — so
at most 9 of them; the cap of 3 is applied only at use sites, not here. -/
theorem resolve_traits_canonical :
    ∀ (llm : Option (List String)) (sel pri : Option (List String)),
      (resolve_traits llm sel pri).Nodup ∧
      (∀ t ∈ resolve_traits llm sel pri, t ∈ TRAIT_OPTIONS) ∧
      (resolve_traits llm sel pri).length ≤ 9 := by
  intro llm sel pri
  have key : (resolve_traits llm sel pri).Nodup ∧
      ∀ t ∈ resolve_traits llm sel pri, t ∈ TRAIT_OPTIONS := by
    have hres : resolve_traits llm sel pri =
        if normalize_traits pri ≠ [] then normalize_traits pri
        else unique_ordered (llm_map_traits llm ++ normalize_traits sel) :=
      rfl
    rw [hres]
    split
    · exact ⟨normalize_traits_nodup pri, fun t ht => normalize_traits_mem ht⟩
    · refine ⟨unique_ordered_nodup _, fun t ht => ?_⟩
      have hmem := unique_ordered_subset ht
      rcases List.mem_append.1 hmem with hl | hr
      · cases llm with
        | none => simp [llm_map_traits] at hl
        | some ts => exact normalize_traits_mem (o := some ts) hl
      · exact normalize_traits_mem hr
  refine ⟨key.1, key.2, ?_⟩
  have hsub : resolve_traits llm sel pri ⊆ TRAIT_OPTIONS := fun t ht =>
    key.2 t ht
  have := (key.1.subperm hsub).length_le
  simpa using this

/-! ### Claim C9 -/

/-- C9: weight personalization never mutates the shared base table: the
returned reference is fresh (`h.length`), and every dict that existed
before the call — in particular the global `WEIGHTS` table — reads the
same after the call. -/
theorem apply_trait_weights_no_mutation :
    ∀ (h : DictHeap) (base_ref : ℕ) (traits_ordered : List String),
      (apply_trait_weights h base_ref traits_ordered).2 = h.length ∧
      ∀ r, r < h.length →
        heap_read (apply_trait_weights h base_ref traits_ordered).1 r =
          heap_read h r := by
  intro h base_ref traits_ordered
  constructor
  · rfl
  · intro r hr
    have shape : ∃ w',
        (apply_trait_weights h base_ref traits_ordered).1 = h ++ [w'] := by
      unfold apply_trait_weights
      have outer : ∀ (tms : List (String × ℤ)) (w : WeightDict),
          ∃ w', tms.foldl
            (fun hh tm =>
              (TRAIT_WEIGHT_OVERRIDES tm.1).foldl
                (fun hh2 kv =>
                  heap_write hh2 h.length
                    (dict_set (heap_read hh2 h.length) kv.1
                      (dict_get (heap_read hh2 h.length) kv.1 0 +
                        kv.2 * tm.2)))
                hh)
            (h ++ [w]) = h ++ [w'] := by
        intro tms
        induction tms with
        | nil => intro w; exact ⟨w, rfl⟩
        | cons tm rest ih =>
            intro w
            obtain ⟨w1, hw1⟩ := fold_write_shape h
              (fun hh2 kv => dict_set (heap_read hh2 h.length) kv.1
                (dict_get (heap_read hh2 h.length) kv.1 0 + kv.2 * tm.2))
              (TRAIT_WEIGHT_OVERRIDES tm.1) w
            obtain ⟨w2, hw2⟩ := ih w1
            refine ⟨w2, ?_⟩
            simpa [hw1] using hw2
      exact outer (traits_ordered.zip TRAIT_PRIORITY_MULTIPLIERS)
        (heap_read h base_ref)
    obtain ⟨w', hw'⟩ := shape
    rw [hw']
    unfold heap_read
    exact getD_append_left h [w'] [] r hr

/-- C9 witness: on a heap holding only the global `WEIGHTS` dict,
personalizing for two traits leaves the `WEIGHTS` dict unchanged. -/
theorem apply_trait_weights_no_mutation_witness :
    0 < ([WEIGHTS_DICT] : DictHeap).length ∧
    heap_read (apply_trait_weights [WEIGHTS_DICT] 0 ["health", "wealth"]).1 0 =
      WEIGHTS_DICT :=
  ⟨by decide,
    (apply_trait_weights_no_mutation [WEIGHTS_DICT] 0 ["health", "wealth"]).2 0
      (by decide)⟩

/-! ### Scan-loop lemmas -/

theorem dedup_cap_stop {cap : ℕ} {results : List Cand}
    (h : cap ≤ results.length) :
    ∀ l, dedup_cap cap l results = results := by
  intro l
  cases l with
  | nil => rfl
  | cons c rest =>
      unfold dedup_cap
      rw [if_pos h]

/-- The loop `scan_go` is the dedup-with-cap loop over the passing slots: the three
`continue` filters depend only on the slot, never on the accumulated
results. -/
theorem scan_go_eq_dedup (ctx : ScanCtx) (sf : Bool) (ms : ℤ) :
    ∀ (l : List (ℕ × ℕ × ℕ)) (results : List Cand),
      scan_go ctx sf ms l results =
        dedup_cap ctx.hard_cap
          ((l.filter (pass_slot ctx sf ms)).map (mk_cand ctx)) results := by
  intro l
  induction l with
  | nil => intro results; rfl
  | cons s rest ih =>
      intro results
      by_cases hcap : ctx.hard_cap ≤ results.length
      · rw [dedup_cap_stop hcap]
        unfold scan_go
        rw [if_pos hcap]
      · by_cases hp : pass_slot ctx sf ms s = true
        · rw [List.filter_cons_of_pos hp, List.map_cons]
          unfold scan_go dedup_cap
          rw [if_neg hcap, if_neg hcap,
            if_neg (by simp [hp] : ¬ ¬ pass_slot ctx sf ms s = true)]
          by_cases hsig : sig_of (mk_cand ctx s) ∈ results.map sig_of
          · rw [if_pos hsig, if_pos hsig, ih]
          · rw [if_neg hsig, if_neg hsig, ih]
        · rw [List.filter_cons_of_neg (by simpa using hp)]
          unfold scan_go
          rw [if_neg hcap, if_pos (by simpa using hp)]
          exact ih results

theorem dedup_cap_shape (cap : ℕ) :
    ∀ (l results : List Cand), ∃ t, dedup_cap cap l results = results ++ t := by
  intro l
  induction l with
  | nil => intro results; exact ⟨[], by simp [dedup_cap]⟩
  | cons c rest ih =>
      intro results
      unfold dedup_cap
      by_cases hcap : cap ≤ results.length
      · rw [if_pos hcap]; exact ⟨[], by simp⟩
      · rw [if_neg hcap]
        by_cases hsig : sig_of c ∈ results.map sig_of
        · rw [if_pos hsig]; exact ih results
        · rw [if_neg hsig]
          obtain ⟨t, ht⟩ := ih (results ++ [c])
          exact ⟨c :: t, by simpa using ht⟩

theorem dedup_cap_mem (cap : ℕ) :
    ∀ (l results : List Cand) (c : Cand),
      c ∈ dedup_cap cap l results → c ∈ results ∨ c ∈ l := by
  intro l
  induction l with
  | nil => intro results c hc; exact Or.inl hc
  | cons c0 rest ih =>
      intro results c hc
      unfold dedup_cap at hc
      by_cases hcap : cap ≤ results.length
      · rw [if_pos hcap] at hc; exact Or.inl hc
      · rw [if_neg hcap] at hc
        by_cases hsig : sig_of c0 ∈ results.map sig_of
        · rw [if_pos hsig] at hc
          rcases ih results c hc with h | h
          · exact Or.inl h
          · exact Or.inr (List.mem_cons_of_mem _ h)
        · rw [if_neg hsig] at hc
          rcases ih (results ++ [c0]) c hc with h | h
          · rcases List.mem_append.1 h with h' | h'
            · exact Or.inl h'
            · exact Or.inr (by simpa using Or.inl (List.mem_singleton.1 h'))
          · exact Or.inr (List.mem_cons_of_mem _ h)

theorem dedup_cap_nodup (cap : ℕ) :
    ∀ (l results : List Cand), (results.map sig_of).Nodup →
      ((dedup_cap cap l results).map sig_of).Nodup := by
  intro l
  induction l with
  | nil => intro results h; exact h
  | cons c0 rest ih =>
      intro results h
      unfold dedup_cap
      by_cases hcap : cap ≤ results.length
      · rw [if_pos hcap]; exact h
      · rw [if_neg hcap]
        by_cases hsig : sig_of c0 ∈ results.map sig_of
        · rw [if_pos hsig]; exact ih results h
        · rw [if_neg hsig]
          refine ih (results ++ [c0]) ?_
          rw [List.map_append]
          simp only [List.map_cons, List.map_nil]
          rw [List.nodup_append]
          exact ⟨h, List.nodup_singleton _, by
            intro a ha hb
            simp only [List.mem_singleton] at hb
            subst hb
            exact hsig ha⟩

theorem dedup_cap_first (cap : ℕ) :
    ∀ (l results : List Cand) (c : Cand),
      c ∈ dedup_cap cap l results → c ∉ results →
      sig_of c ∉ results.map sig_of ∧
        l.find? (fun x => decide (sig_of x = sig_of c)) = some c := by
  intro l
  induction l with
  | nil =>
      intro results c hc hcr
      exact absurd hc hcr
  | cons c0 rest ih =>
      intro results c hc hcr
      unfold dedup_cap at hc
      by_cases hcap : cap ≤ results.length
      · rw [if_pos hcap] at hc
        exact absurd hc hcr
      · rw [if_neg hcap] at hc
        by_cases hsig : sig_of c0 ∈ results.map sig_of
        · rw [if_pos hsig] at hc
          obtain ⟨hnot, hfind⟩ := ih results c hc hcr
          have hne : sig_of c0 ≠ sig_of c := fun he => hnot (he ▸ hsig)
          refine ⟨hnot, ?_⟩
          rw [List.find?_cons_of_neg _ (by simpa using hne), hfind]
        · rw [if_neg hsig] at hc
          by_cases hc0 : c ∈ results ++ [c0]
          · rcases List.mem_append.1 hc0 with h' | h'
            · exact absurd h' hcr
            · have : c = c0 := List.mem_singleton.1 h'
              subst this
              refine ⟨hsig, ?_⟩
              rw [List.find?_cons_of_pos _ (by simp)]
          · obtain ⟨hnot, hfind⟩ := ih (results ++ [c0]) c hc hc0
            have hnot' : sig_of c ∉ results.map sig_of := by
              intro h
              exact hnot (by simp [h])
            have hne : sig_of c0 ≠ sig_of c := by
              intro he
              exact hnot (by simp [he])
            refine ⟨hnot', ?_⟩
            rw [List.find?_cons_of_neg _ (by simpa using hne), hfind]

theorem run_scan_eq (ctx : ScanCtx) (sf : Bool) (ms : ℤ) (sd ed : ℕ) :
    run_scan ctx sf ms sd ed =
      dedup_cap ctx.hard_cap (scan_pass_list ctx sf ms sd ed) [] :=
  scan_go_eq_dedup ctx sf ms (slot_list sd ed) []

theorem run_scan_mem {ctx : ScanCtx} {sf : Bool} {ms : ℤ} {sd ed : ℕ}
    {c : Cand} (h : c ∈ run_scan ctx sf ms sd ed) :
    c ∈ scan_pass_list ctx sf ms sd ed := by
  rw [run_scan_eq] at h
  rcases dedup_cap_mem _ _ _ _ h with h0 | h1
  · simp at h0
  · exact h1

/-! ### Claim C2 -/

/-- C2 counterexample: on a Monday (weekday 0) the Rahu Kalam interval is
(7.5, 9.0) and the slot at exactly 09:00 — the interval's end hour — IS
skipped (`is_rahu_kalam` is true), while a half-open `[start, end)`
reading would not skip it. -/
theorem rahu_kalam_not_half_open :
    is_rahu_kalam 0 9 0 = true ∧
    RAHU_KALAM (0 % 7) = some (15/2, 9) ∧
    ¬ ((15/2 : ℚ) ≤ (9 : ℚ) + (0 : ℚ) / 60 ∧
        (9 : ℚ) + (0 : ℚ) / 60 < 9) := by
  refine ⟨by with_unfolding_all decide, rfl, by with_unfolding_all decide⟩

/-- C2 (amended): the scanner's Rahu-Kalam test is the CLOSED interval
`start ≤ t ≤ end` of the weekday's table entry (so a slot exactly at the
end hour is also skipped), and no candidate retained by a scan lies in
that closed interval. -/
theorem is_rahu_kalam_closed_interval :
    (∀ (d hour minute : ℕ) (s e : ℚ), RAHU_KALAM (d % 7) = some (s, e) →
      (is_rahu_kalam d hour minute = true ↔
        s ≤ (hour : ℚ) + (minute : ℚ) / 60 ∧
          (hour : ℚ) + (minute : ℚ) / 60 ≤ e)) ∧
    (∀ (ctx : ScanCtx) (sf : Bool) (ms : ℤ) (sd ed : ℕ),
      ∀ c ∈ run_scan ctx sf ms sd ed,
        is_rahu_kalam c.date c.hour c.minute = false) := by
  constructor
  · intro d hour minute s e hse
    simp only [is_rahu_kalam, hse, decide_eq_true_eq]
  · intro ctx sf ms sd ed c hc
    have hmem := run_scan_mem hc
    unfold scan_pass_list at hmem
    obtain ⟨s, hs, rfl⟩ := List.mem_map.1 hmem
    have hpass := (List.mem_filter.1 hs).2
    simp only [pass_slot, decide_eq_true_eq] at hpass
    simp only [mk_cand]
    simpa using hpass.1

/-- C2 witness: the closed-interval characterization at Monday 06:00 (not
skipped: 6 is before 7.5), and the scanned benefic-scenario candidate
(Monday 06:00) indeed fails the Rahu-Kalam test. -/
theorem is_rahu_kalam_closed_interval_witness :
    RAHU_KALAM (0 % 7) = some (15/2, 9) ∧
    (is_rahu_kalam 0 6 0 = true ↔
      (15/2 : ℚ) ≤ (6 : ℚ) + (0 : ℚ) / 60 ∧
        (6 : ℚ) + (0 : ℚ) / 60 ≤ 9) ∧
    cand_benefic ∈ run_scan ctx_benefic true 10 0 0 ∧
    is_rahu_kalam cand_benefic.date cand_benefic.hour cand_benefic.minute =
      false :=
  ⟨rfl, is_rahu_kalam_closed_interval.1 0 6 0 (15/2) 9 rfl, cand_benefic_mem,
    is_rahu_kalam_closed_interval.2 ctx_benefic true 10 0 0 cand_benefic
      cand_benefic_mem⟩

/-! ### Claim C5 -/

/-- C5: within one scan no two retained candidates share a signature
tuple, and every retained candidate is the EARLIEST candidate (in
chronological scan order, `List.find?`) among the filter-passing slots
with its signature. -/
theorem scan_dedup_unique :
    ∀ (ctx : ScanCtx) (sf : Bool) (ms : ℤ) (sd ed : ℕ),
      ((run_scan ctx sf ms sd ed).map sig_of).Nodup ∧
      ∀ c ∈ run_scan ctx sf ms sd ed,
        (scan_pass_list ctx sf ms sd ed).find?
          (fun x => decide (sig_of x = sig_of c)) = some c := by
  intro ctx sf ms sd ed
  constructor
  · rw [run_scan_eq]
    exact dedup_cap_nodup _ _ _ (by simp)
  · intro c hc
    rw [run_scan_eq] at hc
    exact (dedup_cap_first _ _ _ c hc (by simp)).2

/-- C5 witness: the benefic one-day scenario retains the Monday 06:00
candidate, and it is the first passing candidate with its signature. -/
theorem scan_dedup_unique_witness :
    cand_benefic ∈ run_scan ctx_benefic true 10 0 0 ∧
    (scan_pass_list ctx_benefic true 10 0 0).find?
      (fun x => decide (sig_of x = sig_of cand_benefic)) = some cand_benefic :=
  ⟨cand_benefic_mem,
    (scan_dedup_unique ctx_benefic true 10 0 0).2 cand_benefic
      cand_benefic_mem⟩

/-! ### Sort-key lemmas -/

theorem sort_key_le_iff (a b : Cand) :
    sort_key_le a b = true ↔ rank_order a b := by
  unfold sort_key_le sort_key rank_order
  rw [decide_eq_true_eq]
  simp [Prod.Lex.le_iff, Prod.Lex.lt_iff, neg_lt_neg_iff, neg_inj,
    Nat.lt_iff_add_one_le]

theorem sort_key_le_trans :
    ∀ (a b c : Cand), sort_key_le a b = true → sort_key_le b c = true →
      sort_key_le a c = true := by
  intro a b c hab hbc
  unfold sort_key_le at *
  rw [decide_eq_true_eq] at *
  exact le_trans hab hbc

theorem sort_key_le_total :
    ∀ (a b : Cand), (sort_key_le a b || sort_key_le b a) = true := by
  intro a b
  unfold sort_key_le
  rcases le_total (sort_key a) (sort_key b) with h | h <;> simp [h]

/-- The list `sort_results l` is a permutation of `l`, sorted by the
documented order. -/
theorem sort_results_spec (l : List Cand) :
    (sort_results l).Perm l ∧ (sort_results l).Pairwise rank_order := by
  constructor
  · exact List.mergeSort_perm l sort_key_le
  · have h := List.sorted_mergeSort sort_key_le_trans sort_key_le_total l
    exact h.imp fun hab => (sort_key_le_iff _ _).1 hab

/-! ### Claim C3 -/

/-- C3: for a valid request the relaxed scan result is used exactly when
the strict scan is empty: a non-empty strict scan is ranked and returned
as is, and an empty one is replaced by the relaxed scan (trait filters
off, threshold 0). -/
theorem two_phase_fallback :
    ∀ (sd ed mr : ℕ) (oracle : ℕ → ℕ → ℕ → Astro)
      (llm : Option (List String)) (sel pri : Option (List String))
      (par : Option (ParentsMeta × (ℕ → ℕ → ℕ → ParentsDasha))),
      sd ≤ ed → ed - sd ≤ 365 →
      (run_scan (suggest_ctx mr oracle llm sel pri par) true 10 sd ed ≠ [] →
        suggest_muhurats sd ed mr oracle llm sel pri par =
          .ok ((sort_results (run_scan (suggest_ctx mr oracle llm sel pri par)
              true 10 sd ed)).take mr,
            resolve_traits llm sel pri,
            get_weights_for_traits_w (resolve_traits llm sel pri))) ∧
      (run_scan (suggest_ctx mr oracle llm sel pri par) true 10 sd ed = [] →
        suggest_muhurats sd ed mr oracle llm sel pri par =
          .ok ((sort_results (run_scan (suggest_ctx mr oracle llm sel pri par)
              false 0 sd ed)).take mr,
            resolve_traits llm sel pri,
            get_weights_for_traits_w (resolve_traits llm sel pri))) := by
  intro sd ed mr oracle llm sel pri par h1 h2
  have hv1 : ¬ ed < sd := not_lt.2 h1
  have hv2 : ¬ 365 < ed - sd := not_lt.2 h2
  constructor
  · intro hne
    unfold suggest_muhurats
    rw [if_neg hv1, if_neg hv2]
    show Except.ok
        ((sort_results
          (if run_scan (suggest_ctx mr oracle llm sel pri par) true 10 sd ed
              = []
           then run_scan (suggest_ctx mr oracle llm sel pri par) false 0 sd ed
           else run_scan (suggest_ctx mr oracle llm sel pri par) true 10
             sd ed)).take mr,
         resolve_traits llm sel pri,
         get_weights_for_traits_w (resolve_traits llm sel pri)) = _
    rw [if_neg hne]
  · intro heq
    unfold suggest_muhurats
    rw [if_neg hv1, if_neg hv2]
    show Except.ok
        ((sort_results
          (if run_scan (suggest_ctx mr oracle llm sel pri par) true 10 sd ed
              = []
           then run_scan (suggest_ctx mr oracle llm sel pri par) false 0 sd ed
           else run_scan (suggest_ctx mr oracle llm sel pri par) true 10
             sd ed)).take mr,
         resolve_traits llm sel pri,
         get_weights_for_traits_w (resolve_traits llm sel pri)) = _
    rw [if_pos heq]

/-- C3 witness: the benefic one-day scenario has a non-empty strict scan,
so the returned list is the ranked strict result and the relaxed scan is
not consulted. -/
theorem two_phase_fallback_witness :
    (0 ≤ 0 ∧ 0 - 0 ≤ 365) ∧
    run_scan (suggest_ctx 10 (fun _ _ _ => astro_benefic) none none none none)
      true 10 0 0 ≠ [] ∧
    suggest_muhurats 0 0 10 (fun _ _ _ => astro_benefic) none none none none =
      .ok ((sort_results (run_scan
          (suggest_ctx 10 (fun _ _ _ => astro_benefic) none none none none)
          true 10 0 0)).take 10,
        resolve_traits none none none,
        get_weights_for_traits_w (resolve_traits none none none)) := by
  have hctx :
      suggest_ctx 10 (fun _ _ _ => astro_benefic) none none none none =
        ctx_benefic := rfl
  have hne : run_scan
      (suggest_ctx 10 (fun _ _ _ => astro_benefic) none none none none)
      true 10 0 0 ≠ [] := by
    rw [hctx, run_scan_benefic_eval]
    simp
  exact ⟨⟨le_refl 0, by norm_num⟩, hne,
    (two_phase_fallback 0 0 10 (fun _ _ _ => astro_benefic) none none none
      none (le_refl 0) (by norm_num)).1 hne⟩

/-! ### Claim C4 -/

/-- C4: for a valid request the returned list is the collected candidates
sorted by score descending, then date ascending, then time ascending, and
truncated to at most `max_results` entries: the output equals
`take max_results` of a sorted permutation of the collected list. -/
theorem ranking_sorted :
    ∀ (sd ed mr : ℕ) (oracle : ℕ → ℕ → ℕ → Astro)
      (llm : Option (List String)) (sel pri : Option (List String))
      (par : Option (ParentsMeta × (ℕ → ℕ → ℕ → ParentsDasha))),
      sd ≤ ed → ed - sd ≤ 365 →
      (sort_results (collected_candidates sd ed mr oracle llm sel pri
          par)).Perm (collected_candidates sd ed mr oracle llm sel pri par) ∧
      (sort_results (collected_candidates sd ed mr oracle llm sel pri
          par)).Pairwise rank_order ∧
      suggest_muhurats sd ed mr oracle llm sel pri par =
        .ok ((sort_results (collected_candidates sd ed mr oracle llm sel pri
            par)).take mr,
          resolve_traits llm sel pri,
          get_weights_for_traits_w (resolve_traits llm sel pri)) := by
  intro sd ed mr oracle llm sel pri par h1 h2
  refine ⟨(sort_results_spec _).1, (sort_results_spec _).2, ?_⟩
  unfold suggest_muhurats
  rw [if_neg (not_lt.2 h1), if_neg (not_lt.2 h2)]
  rfl

/-- C4 witness: the ranking property instantiated on the benefic one-day
request. -/
theorem ranking_sorted_witness :
    (0 ≤ 0 ∧ 0 - 0 ≤ 365) ∧
    (sort_results (collected_candidates 0 0 10 (fun _ _ _ => astro_benefic)
        none none none none)).Perm
      (collected_candidates 0 0 10 (fun _ _ _ => astro_benefic) none none
        none none) ∧
    (sort_results (collected_candidates 0 0 10 (fun _ _ _ => astro_benefic)
        none none none none)).Pairwise rank_order ∧
    suggest_muhurats 0 0 10 (fun _ _ _ => astro_benefic) none none none
        none =
      .ok ((sort_results (collected_candidates 0 0 10
          (fun _ _ _ => astro_benefic) none none none none)).take 10,
        resolve_traits none none none,
        get_weights_for_traits_w (resolve_traits none none none)) :=
  ⟨⟨le_refl 0, by norm_num⟩,
    ranking_sorted 0 0 10 (fun _ _ _ => astro_benefic) none none none none
      (le_refl 0) (by norm_num)⟩

/-! ### Scoring bound lemmas -/

theorem compute_score_eq (astro : Astro) (pm : Option ParentsMeta)
    (w : Weights) :
    compute_score astro pm w =
      (if max_possible w ≤ 0 then 0
       else pyround ((compute_raw astro pm w : ℚ) /
         (max_possible w : ℚ) * 100)) := rfl

theorem score_nakshatra_bounds {n : String} {w : Weights}
    (h : 0 ≤ w.nakshatra) :
    0 ≤ score_nakshatra n w ∧ score_nakshatra n w ≤ w.nakshatra := by
  unfold score_nakshatra; split <;> omega

theorem score_rashi_bounds {n : String} {w : Weights} (h : 0 ≤ w.rashi) :
    0 ≤ score_rashi n w ∧ score_rashi n w ≤ w.rashi := by
  unfold score_rashi; split <;> omega

theorem score_pada_bounds {p : ℤ} {w : Weights} (h : 0 ≤ w.pada) :
    0 ≤ score_pada p w ∧ score_pada p w ≤ w.pada := by
  unfold score_pada; split <;> omega

theorem score_tithi_bounds {n : String} {w : Weights} (h : 0 ≤ w.tithi) :
    0 ≤ score_tithi n w ∧ score_tithi n w ≤ w.tithi := by
  unfold score_tithi; split <;> omega

theorem score_yoga_bounds {n : String} {w : Weights} (h : 0 ≤ w.yoga) :
    0 ≤ score_yoga n w ∧ score_yoga n w ≤ w.yoga := by
  unfold score_yoga; split <;> omega

theorem score_karana_bounds {n : String} {w : Weights} (h : 0 ≤ w.karana) :
    0 ≤ score_karana n w ∧ score_karana n w ≤ w.karana := by
  unfold score_karana; split <;> omega

theorem score_lagna_bounds {n : String} {w : Weights} (h : 0 ≤ w.lagna) :
    0 ≤ score_lagna n w ∧ score_lagna n w ≤ w.lagna := by
  unfold score_lagna; split <;> omega

theorem score_eighth_house_bounds {n : String} {w : Weights}
    (h : 0 ≤ w.eighth_house) :
    0 ≤ score_eighth_house n w ∧ score_eighth_house n w ≤ w.eighth_house := by
  unfold score_eighth_house; split <;> omega

theorem score_jupiter_bounds {n : String} {w : Weights} (h : 0 ≤ w.jupiter) :
    0 ≤ score_jupiter n w ∧ score_jupiter n w ≤ w.jupiter := by
  unfold score_jupiter; split <;> omega

theorem score_dasha_bounds {n : String} {w : Weights} (h : 0 ≤ w.dasha) :
    0 ≤ score_dasha n w ∧ score_dasha n w ≤ w.dasha := by
  unfold score_dasha; split <;> omega

theorem score_parents_dasha_bounds {d : Option ParentsDasha} {w : Weights}
    (h : 0 ≤ w.parents_dasha) :
    0 ≤ score_parents_dasha d w ∧
      score_parents_dasha d w ≤ w.parents_dasha := by
  cases d with
  | none => exact ⟨le_refl 0, h⟩
  | some p =>
      simp only [score_parents_dasha]
      split <;> omega

theorem score_lagna_friendship_bounds {g : String} {d : Option ParentsDasha}
    {w : Weights} (h : 0 ≤ w.lagna_friendship) :
    0 ≤ score_lagna_friendship g d w ∧
      score_lagna_friendship g d w ≤ w.lagna_friendship := by
  cases d with
  | none => exact ⟨le_refl 0, h⟩
  | some p =>
      simp only [score_lagna_friendship]
      split
      · omega
      · split <;> omega

theorem score_arrival_indicator_bounds {x y d : Option String}
    {w : Weights} (h : 0 ≤ w.arrival_indicator) :
    0 ≤ score_arrival_indicator x y d w ∧
      score_arrival_indicator x y d w ≤ w.arrival_indicator := by
  unfold score_arrival_indicator
  split
  · omega
  · split <;> omega

theorem score_jupiter_compensation_bounds {p q : Option Bool} {w : Weights}
    (h : 0 ≤ w.jupiter_compensation) :
    0 ≤ score_jupiter_compensation p q w ∧
      score_jupiter_compensation p q w ≤ w.jupiter_compensation := by
  unfold score_jupiter_compensation
  split <;> omega

theorem score_dasha_clash_bounds {d : Option String} {b : String}
    {w : Weights} (h : 0 ≤ w.dasha_clash) :
    -w.dasha_clash ≤ score_dasha_clash d b w ∧ score_dasha_clash d b w ≤ 0 := by
  unfold score_dasha_clash
  split
  · omega
  · split <;> omega

theorem score_house_strength_le {a b : ℤ} {w : Weights}
    (h9w : 0 ≤ w.ninth_house_strength) (h4w : 0 ≤ w.fourth_house_strength)
    (h9 : a ≤ 1) (h4 : b ≤ 1) :
    score_house_strength a b w ≤
      w.ninth_house_strength + w.fourth_house_strength := by
  unfold score_house_strength
  have t9 : a * w.ninth_house_strength ≤ 1 * w.ninth_house_strength :=
    mul_le_mul_of_nonneg_right h9 h9w
  have t4 : b * w.fourth_house_strength ≤ 1 * w.fourth_house_strength :=
    mul_le_mul_of_nonneg_right h4 h4w
  nlinarith

theorem score_house_strength_nonneg {a b : ℤ} {w : Weights}
    (h9w : 0 ≤ w.ninth_house_strength) (h4w : 0 ≤ w.fourth_house_strength)
    (h9 : 0 ≤ a) (h4 : 0 ≤ b) :
    0 ≤ score_house_strength a b w := by
  unfold score_house_strength
  have := mul_nonneg h9 h9w
  have := mul_nonneg h4 h4w
  linarith

theorem baby_bonus_bounds {b : String} {w : Weights}
    (h : 0 ≤ w.baby_start_dasha) :
    0 ≤ (if b ≠ "" then w.baby_start_dasha else 0) ∧
      (if b ≠ "" then w.baby_start_dasha else 0) ≤ w.baby_start_dasha := by
  split <;> omega

theorem compute_raw_le {astro : Astro} {pm : Option ParentsMeta} {w : Weights}
    (hw : NonnegWeights w) (h9 : astro.ninth_strength.getD 0 ≤ 1)
    (h4 : astro.fourth_strength.getD 0 ≤ 1) :
    compute_raw astro pm w ≤ max_possible w := by
  obtain ⟨w1, w2, w3, w4, w5, w6, w7, w8, w9, w10, w11, w12, w13, w14, w15,
    w16, w17, w18, w19⟩ := hw
  have b1 := score_nakshatra_bounds (n := astro.nakshatra) w1
  have b2 := score_rashi_bounds (n := astro.rashi) w2
  have b3 := score_pada_bounds (p := astro.pada) w3
  have b4 := score_tithi_bounds (n := astro.tithi) w4
  have b5 := score_yoga_bounds (n := astro.yoga) w5
  have b6 := score_karana_bounds (n := astro.karana) w6
  have b7 := score_lagna_bounds (n := astro.lagna) w7
  have b8 := score_eighth_house_bounds (n := astro.eighth_house_rashi) w8
  have b9 := score_jupiter_bounds (n := astro.jupiter_rashi) w9
  have b10 := score_dasha_bounds (n := astro.dasha_lord) w10
  have b11 := score_parents_dasha_bounds (d := astro.parents_dasha) w11
  have bh := score_house_strength_le (a := astro.ninth_strength.getD 0)
    (b := astro.fourth_strength.getD 0) w17 w18 h9 h4
  have bb := baby_bonus_bounds (b := baby_start_dasha_lord astro.nakshatra)
    (w := w) w19
  cases pm with
  | none =>
      simp only [compute_raw, max_possible]
      linarith
  | some p =>
      have bf := score_lagna_friendship_bounds (g := astro.lagna_lord)
        (d := astro.parents_dasha) w12
      have ba1 := score_arrival_indicator_bounds (x := p.mother.fifth_lord)
        (y := p.mother.ninth_lord) (d := pd_mother astro.parents_dasha)
        (w := w) w13
      have ba2 := score_arrival_indicator_bounds (x := p.father.fifth_lord)
        (y := p.father.ninth_lord) (d := pd_father astro.parents_dasha)
        (w := w) w13
      have bc1 := score_dasha_clash_bounds (d := pd_mother astro.parents_dasha)
        (b := baby_start_dasha_lord astro.nakshatra) (w := w) w16
      have bc2 := score_dasha_clash_bounds (d := pd_father astro.parents_dasha)
        (b := baby_start_dasha_lord astro.nakshatra) (w := w) w16
      have bj1 := score_jupiter_compensation_bounds
        (p := p.mother.jupiter_strong) (q := astro.jupiter_strong)
        (w := w) w15
      have bj2 := score_jupiter_compensation_bounds
        (p := p.father.jupiter_strong) (q := astro.jupiter_strong)
        (w := w) w15
      simp only [compute_raw, max_possible]
      linarith

theorem compute_raw_nonneg {astro : Astro} {w : Weights}
    (hw : NonnegWeights w) (h9 : 0 ≤ astro.ninth_strength.getD 0)
    (h4 : 0 ≤ astro.fourth_strength.getD 0) :
    0 ≤ compute_raw astro none w := by
  obtain ⟨w1, w2, w3, w4, w5, w6, w7, w8, w9, w10, w11, w12, w13, w14, w15,
    w16, w17, w18, w19⟩ := hw
  have b1 := score_nakshatra_bounds (n := astro.nakshatra) w1
  have b2 := score_rashi_bounds (n := astro.rashi) w2
  have b3 := score_pada_bounds (p := astro.pada) w3
  have b4 := score_tithi_bounds (n := astro.tithi) w4
  have b5 := score_yoga_bounds (n := astro.yoga) w5
  have b6 := score_karana_bounds (n := astro.karana) w6
  have b7 := score_lagna_bounds (n := astro.lagna) w7
  have b8 := score_eighth_house_bounds (n := astro.eighth_house_rashi) w8
  have b9 := score_jupiter_bounds (n := astro.jupiter_rashi) w9
  have b10 := score_dasha_bounds (n := astro.dasha_lord) w10
  have b11 := score_parents_dasha_bounds (d := astro.parents_dasha) w11
  have bh := score_house_strength_nonneg (a := astro.ninth_strength.getD 0)
    (b := astro.fourth_strength.getD 0) w17 w18 h9 h4
  have bb := baby_bonus_bounds (b := baby_start_dasha_lord astro.nakshatra)
    (w := w) w19
  simp only [compute_raw]
  linarith

/-! ### Claim C1 -/

/-- C1 counterexample: `compute_score` is NOT always within [0, 100] —
with the default weights, a benefic factor set whose ninth-house strength
count is 30 scores 176 (the house-strength term is multiplied by the
count while `_max_possible` counts its weight only once). -/
theorem compute_score_exceeds_100 :
    compute_score astro_overflow none WEIGHTS = 176 ∧
    ¬ (0 ≤ compute_score astro_overflow none WEIGHTS ∧
        compute_score astro_overflow none WEIGHTS ≤ 100) := by
  constructor
  · with_unfolding_all decide
  · with_unfolding_all decide

/-- C1 (amended): `compute_score` always returns an integer, and with all
weights zero it returns 0 with no division by zero (the `max_score <= 0`
guard).  The `[0, 100]` containment does not hold in general: for
non-negative weight tables it holds at the top whenever the ninth- and
fourth-house strength counts are at most 1, and at the bottom whenever no
parent metadata is supplied (only the per-parent dasha-clash term is ever
negative). -/
theorem compute_score_normalized :
    (∀ (astro : Astro) (pm : Option ParentsMeta),
      compute_score astro pm zero_weights = 0) ∧
    (∀ (astro : Astro) (pm : Option ParentsMeta) (w : Weights),
      NonnegWeights w → astro.ninth_strength.getD 0 ≤ 1 →
      astro.fourth_strength.getD 0 ≤ 1 → compute_score astro pm w ≤ 100) ∧
    (∀ (astro : Astro) (w : Weights),
      NonnegWeights w → 0 ≤ astro.ninth_strength.getD 0 →
      0 ≤ astro.fourth_strength.getD 0 →
      0 ≤ compute_score astro none w) := by
  refine ⟨?_, ?_, ?_⟩
  · intro astro pm
    rw [compute_score_eq, if_pos (by decide : max_possible zero_weights ≤ 0)]
  · intro astro pm w hw h9 h4
    rw [compute_score_eq]
    split
    · norm_num
    · rename_i hmax
      have hmaxpos : 0 < max_possible w := by omega
      have hraw := @compute_raw_le astro pm w hw h9 h4
      apply pyround_le
      have hrq : (compute_raw astro pm w : ℚ) ≤ (max_possible w : ℚ) := by
        exact_mod_cast hraw
      have hmq : (0 : ℚ) < (max_possible w : ℚ) := by exact_mod_cast hmaxpos
      have hdiv : (compute_raw astro pm w : ℚ) / (max_possible w : ℚ) ≤ 1 := by
        rw [div_le_one hmq]
        exact hrq
      calc (compute_raw astro pm w : ℚ) / (max_possible w : ℚ) * 100
          ≤ 1 * 100 := mul_le_mul_of_nonneg_right hdiv (by norm_num)
        _ = ((100 : ℤ) : ℚ) := by norm_num
  · intro astro w hw h9 h4
    rw [compute_score_eq]
    split
    · norm_num
    · rename_i hmax
      have hmaxpos : 0 < max_possible w := by omega
      have hraw := compute_raw_nonneg hw h9 h4
      apply pyround_nonneg
      have hrq : (0 : ℚ) ≤ (compute_raw astro none w : ℚ) := by
        exact_mod_cast hraw
      have hmq : (0 : ℚ) ≤ (max_possible w : ℚ) := by
        exact_mod_cast le_of_lt hmaxpos
      exact mul_nonneg (div_nonneg hrq hmq) (by norm_num)

/-- C1 witness: the amended bounds instantiated on the benefic factor set
(strength counts 1 and 0) with the zero table and the default table. -/
theorem compute_score_normalized_witness :
    compute_score astro_benefic none zero_weights = 0 ∧
    (NonnegWeights WEIGHTS ∧ astro_benefic.ninth_strength.getD 0 ≤ 1 ∧
      astro_benefic.fourth_strength.getD 0 ≤ 1 ∧
      compute_score astro_benefic none WEIGHTS ≤ 100) ∧
    (0 ≤ astro_benefic.ninth_strength.getD 0 ∧
      0 ≤ astro_benefic.fourth_strength.getD 0 ∧
      0 ≤ compute_score astro_benefic none WEIGHTS) :=
  ⟨compute_score_normalized.1 astro_benefic none,
    ⟨by decide, by decide, by decide,
      compute_score_normalized.2.1 astro_benefic none WEIGHTS (by decide)
        (by decide) (by decide)⟩,
    ⟨by decide, by decide,
      compute_score_normalized.2.2 astro_benefic WEIGHTS (by decide)
        (by decide) (by decide)⟩⟩

/-! ### Claim C8 -/

theorem nak_idx_lt_27 {m : ℚ} (h0 : 0 ≤ m) (h1 : m < 360) :
    get_nakshatra_index m < 27 := by
  unfold get_nakshatra_index
  have hspan : (0 : ℚ) < NAKSHATRA_SPAN := by norm_num [NAKSHATRA_SPAN]
  have hdiv : m / NAKSHATRA_SPAN < 27 := by
    rw [div_lt_iff hspan]
    norm_num [NAKSHATRA_SPAN]
    linarith
  have hfl : ⌊m / NAKSHATRA_SPAN⌋ < 27 :=
    Int.floor_lt.2 (by exact_mod_cast hdiv)
  omega

/-- For each of the 27 nakshatra indices, the Vimshottari period of the
nakshatra's lord has a positive length. -/
theorem start_dasha_dur_pos :
    ∀ k : Fin 27,
      0 < (DASHA_SEQUENCE.getD
        ((DASHA_SEQUENCE.map (fun x => x.1)).indexOf
          (NAKSHATRA_LORDS.getD k.1 "")) ("", 0)).2 := by
  decide

/-- C8: with the target equal to the birth instant (elapsed time 0),
`get_dasha_lord` returns exactly the nakshatra-lord of the birth moon
position, read from the fixed 27-entry `NAKSHATRA_LORDS` cycle. -/
theorem dasha_lord_at_birth :
    ∀ moon_lon : ℚ, 0 ≤ moon_lon → moon_lon < 360 →
      get_dasha_lord moon_lon 0 =
        NAKSHATRA_LORDS.getD (get_nakshatra_index moon_lon) "" := by
  intro m h0 h1
  have hspan : (0 : ℚ) < NAKSHATRA_SPAN := by norm_num [NAKSHATRA_SPAN]
  have hrem := pymod_lt m hspan
  have hfrac : 0 < (NAKSHATRA_SPAN - pymod m NAKSHATRA_SPAN) /
      NAKSHATRA_SPAN := div_pos (by linarith) hspan
  have hidx : get_nakshatra_index m < 27 := nak_idx_lt_27 h0 h1
  have hdur := start_dasha_dur_pos ⟨get_nakshatra_index m, hidx⟩
  have hdur' : 0 < (DASHA_SEQUENCE.getD
      ((DASHA_SEQUENCE.map (fun x => x.1)).indexOf
        (NAKSHATRA_LORDS.getD (get_nakshatra_index m) "")) ("", 0)).2 := hdur
  simp only [get_dasha_lord]
  split
  · rename_i habs
    exact absurd habs (lt_irrefl 0)
  · split
    · rfl
    · rename_i hcn
      exact absurd (mul_pos hdur' hfrac) hcn

/-- C8 witness: at moon longitude 100° the birth-instant dasha lord is
the lord of nakshatra index 7 (Pushya), Saturn. -/
theorem dasha_lord_at_birth_witness :
    ((0 : ℚ) ≤ 100 ∧ (100 : ℚ) < 360) ∧
    get_dasha_lord 100 0 =
      NAKSHATRA_LORDS.getD (get_nakshatra_index 100) "" ∧
    NAKSHATRA_LORDS.getD (get_nakshatra_index 100) "" = "Saturn" :=
  ⟨⟨by decide, by decide⟩, dasha_lord_at_birth 100 (by decide) (by decide),
    by with_unfolding_all decide⟩

/-! ### Claim C7 : wrap and arc lemmas -/

theorem wrap360_nonneg (x : ℚ) : 0 ≤ wrap360 x :=
  pymod_nonneg x (by norm_num)

theorem wrap360_lt (x : ℚ) : wrap360 x < 360 :=
  pymod_lt x (by norm_num)

theorem wrap360_eq_self {x : ℚ} (h0 : 0 ≤ x) (h1 : x < 360) :
    wrap360 x = x :=
  pymod_eq_self (by norm_num) h0 h1

theorem wrap360_neg_eq {x : ℚ} (h0 : -360 ≤ x) (h1 : x < 0) :
    wrap360 x = x + 360 :=
  pymod_neg_eq (by norm_num) h0 h1

theorem wrap360_add_int_mul (x : ℚ) (k : ℤ) :
    wrap360 (x + 360 * k) = wrap360 x :=
  pymod_add_int_mul x (by norm_num) k

theorem wrap360_sub_wrap360 (a b : ℚ) :
    wrap360 (wrap360 a - wrap360 b) = wrap360 (a - b) := by
  have h : wrap360 a - wrap360 b =
      (a - b) + 360 * ((⌊b / 360⌋ - ⌊a / 360⌋ : ℤ) : ℚ) := by
    unfold wrap360 pymod
    push_cast
    ring
  rw [h, wrap360_add_int_mul (a - b) (⌊b / 360⌋ - ⌊a / 360⌋)]

theorem arc_mem_of_le {s e x : ℚ} (hse : s ≤ e) (hs0 : 0 ≤ s) (_ : s < 360)
    (_ : 0 ≤ e) (he1 : e < 360) (hx0 : 0 ≤ x) (hx1 : x < 360) :
    arc_mem s e x ↔ s ≤ x ∧ x < e := by
  unfold arc_mem
  by_cases hxs : s ≤ x
  · rw [wrap360_eq_self (by linarith) (by linarith),
      wrap360_eq_self (by linarith) (by linarith)]
    constructor
    · intro h
      exact ⟨hxs, by linarith⟩
    · intro h
      linarith [h.2]
  · rw [wrap360_neg_eq (by linarith) (by linarith),
      wrap360_eq_self (by linarith) (by linarith)]
    constructor
    · intro h
      exfalso
      linarith
    · intro h
      exact absurd h.1 hxs

theorem arc_mem_of_gt {s e x : ℚ} (hse : e < s) (_ : 0 ≤ s) (hs1 : s < 360)
    (he0 : 0 ≤ e) (_ : e < 360) (hx0 : 0 ≤ x) (hx1 : x < 360) :
    arc_mem s e x ↔ (s ≤ x ∨ x < e) := by
  unfold arc_mem
  by_cases hxs : s ≤ x
  · rw [wrap360_eq_self (by linarith) (by linarith),
      wrap360_neg_eq (by linarith) (by linarith)]
    constructor
    · intro _
      exact Or.inl hxs
    · intro _
      linarith
  · rw [wrap360_neg_eq (by linarith) (by linarith),
      wrap360_neg_eq (by linarith) (by linarith)]
    constructor
    · intro h
      exact Or.inr (by linarith)
    · intro h
      rcases h with h | h
      · exact absurd h hxs
      · linarith

theorem cusp_arc_test_iff {s e x : ℚ} (hs0 : 0 ≤ s) (hs1 : s < 360)
    (he0 : 0 ≤ e) (he1 : e < 360) (hx0 : 0 ≤ x) (hx1 : x < 360) :
    cusp_arc_test s e x = true ↔ arc_mem s e x := by
  unfold cusp_arc_test
  split
  · rename_i hse
    rw [decide_eq_true_eq, arc_mem_of_le hse hs0 hs1 he0 he1 hx0 hx1]
  · rename_i hse
    rw [decide_eq_true_eq,
      arc_mem_of_gt (not_le.1 hse) hs0 hs1 he0 he1 hx0 hx1]

/-- Arc membership is invariant under rotating the frame to any base
direction `c`. -/
theorem arc_mem_shift (a b x c : ℚ) :
    arc_mem a b x ↔
      arc_mem (wrap360 (a - c)) (wrap360 (b - c)) (wrap360 (x - c)) := by
  unfold arc_mem
  rw [wrap360_sub_wrap360, wrap360_sub_wrap360]
  have h1 : x - c - (a - c) = x - a := by ring
  have h2 : b - c - (a - c) = b - a := by ring
  rw [h1, h2]

/-- C7: house assignment is total and exclusive.  For every 12-cusp ring
and every longitude in [0, 360) there is exactly one house index whose
half-open arc (wrapping at 360°) contains the longitude, and
`house_for_longitude` returns that index (as a house number in 1..12). -/
theorem house_total_exclusive :
    ∀ (cusps : Fin 12 → ℚ) (lon : ℚ), IsCuspRing cusps → 0 ≤ lon →
      lon < 360 →
      (∃! i : Fin 12, arc_mem (cusps i) (cusps (i + 1)) lon) ∧
      ∀ i : Fin 12, arc_mem (cusps i) (cusps (i + 1)) lon →
        house_for_longitude cusps lon = i.1 + 1 := by
  intro cusps lon hring hl0 hl1
  obtain ⟨hrange, hmono⟩ := hring
  have hδ0 : wrap360 (cusps 0 - cusps 0) = 0 := by
    rw [sub_self]
    exact wrap360_eq_self (le_refl 0) (by norm_num)
  have hu0 : 0 ≤ wrap360 (lon - cusps 0) := wrap360_nonneg _
  have hu1 : wrap360 (lon - cusps 0) < 360 := wrap360_lt _
  have hval : ∀ i : Fin 12, i.1 < 11 → ((i + 1 : Fin 12) : ℕ) = i.1 + 1 := by
    intro i hi
    rw [Fin.val_add, Fin.val_one]
    exact Nat.mod_eq_of_lt (by omega)
  have hchar1 : ∀ i : Fin 12, i.1 < 11 →
      (arc_mem (cusps i) (cusps (i + 1)) lon ↔
        wrap360 (cusps i - cusps 0) ≤ wrap360 (lon - cusps 0) ∧
          wrap360 (lon - cusps 0) < wrap360 (cusps (i + 1) - cusps 0)) := by
    intro i hi
    have hlt : i < i + 1 := by
      rw [Fin.lt_def, hval i hi]
      omega
    have hmlt := hmono i (i + 1) hlt
    rw [arc_mem_shift (cusps i) (cusps (i + 1)) lon (cusps 0)]
    exact arc_mem_of_le (le_of_lt hmlt) (wrap360_nonneg _) (wrap360_lt _)
      (wrap360_nonneg _) (wrap360_lt _) hu0 hu1
  have hchar2 : ∀ j : Fin 12, j.1 = 11 →
      (arc_mem (cusps j) (cusps (j + 1)) lon ↔
        wrap360 (cusps j - cusps 0) ≤ wrap360 (lon - cusps 0)) := by
    intro j hj11
    have hj : j = ⟨11, by decide⟩ := Fin.ext hj11
    subst hj
    have hsucc : ((⟨11, by decide⟩ : Fin 12) + 1) = (0 : Fin 12) := rfl
    rw [hsucc, arc_mem_shift (cusps ⟨11, by decide⟩) (cusps 0) lon (cusps 0),
      hδ0]
    have hpos : 0 < wrap360 (cusps ⟨11, by decide⟩ - cusps 0) := by
      have := hmono 0 ⟨11, by decide⟩ (by rw [Fin.lt_def]; omega)
      rw [hδ0] at this
      exact this
    rw [arc_mem_of_gt hpos (wrap360_nonneg _) (wrap360_lt _) (le_refl 0)
      (by norm_num) hu0 hu1]
    constructor
    · intro h
      rcases h with h | h
      · exact h
      · linarith
    · intro h
      exact Or.inl h
  have huniq : ∀ i j : Fin 12, i < j →
      arc_mem (cusps i) (cusps (i + 1)) lon →
      arc_mem (cusps j) (cusps (j + 1)) lon → False := by
    intro i j hij hai haj
    have hijv : i.1 < j.1 := hij
    have hi11 : i.1 < 11 := by
      have := j.2
      omega
    have h1 := (hchar1 i hi11).1 hai
    have h2 : wrap360 (cusps j - cusps 0) ≤ wrap360 (lon - cusps 0) := by
      by_cases hj : j.1 < 11
      · exact ((hchar1 j hj).1 haj).1
      · exact (hchar2 j (by omega)).1 haj
    have hle : wrap360 (cusps (i + 1) - cusps 0) ≤
        wrap360 (cusps j - cusps 0) := by
      have hlev : (i + 1 : Fin 12) ≤ j := by
        rw [Fin.le_def, hval i hi11]
        omega
      rcases lt_or_eq_of_le hlev with h | h
      · exact le_of_lt (hmono _ _ h)
      · rw [h]
    linarith [h1.2]
  have hex : ∃ i : Fin 12, arc_mem (cusps i) (cusps (i + 1)) lon := by
    classical
    set T : Finset (Fin 12) :=
      Finset.univ.filter
        (fun i => wrap360 (cusps i - cusps 0) ≤ wrap360 (lon - cusps 0))
      with hT
    have hT0 : (0 : Fin 12) ∈ T := by
      refine Finset.mem_filter.2 ⟨Finset.mem_univ _, ?_⟩
      rw [hδ0]
      exact hu0
    have hTne : T.Nonempty := ⟨0, hT0⟩
    have hmmem := T.max'_mem hTne
    have hmle : wrap360 (cusps (T.max' hTne) - cusps 0) ≤
        wrap360 (lon - cusps 0) := (Finset.mem_filter.1 hmmem).2
    by_cases hm : (T.max' hTne).1 < 11
    · refine ⟨T.max' hTne, (hchar1 _ hm).2 ⟨hmle, ?_⟩⟩
      by_contra hcn
      push_neg at hcn
      have hmem1 : (T.max' hTne + 1) ∈ T :=
        Finset.mem_filter.2 ⟨Finset.mem_univ _, hcn⟩
      have := Finset.le_max' T _ hmem1
      rw [Fin.le_def, hval _ hm] at this
      omega
    · refine ⟨T.max' hTne, (hchar2 _ (by omega)).2 hmle⟩
  obtain ⟨i0, hi0⟩ := hex
  have hfun : ∀ i : Fin 12, arc_mem (cusps i) (cusps (i + 1)) lon →
      house_for_longitude cusps lon = i.1 + 1 := by
    intro i hi
    have hwl : wrap360 lon = lon := wrap360_eq_self hl0 hl1
    have hcusp : ∀ k : Fin 12, wrap360 (cusps k) = cusps k := fun k =>
      wrap360_eq_self (hrange k).1 (hrange k).2
    have hp : ∀ k : Fin 12,
        (cusp_arc_test (wrap360 (cusps k)) (wrap360 (cusps (k + 1)))
          (wrap360 lon) = true) ↔
          arc_mem (cusps k) (cusps (k + 1)) lon := by
      intro k
      rw [hwl, hcusp k, hcusp (k + 1)]
      exact cusp_arc_test_iff (hrange k).1 (hrange k).2 (hrange (k + 1)).1
        (hrange (k + 1)).2 hl0 hl1
    have hsome : ((List.finRange 12).find?
        (fun k => cusp_arc_test (wrap360 (cusps k))
          (wrap360 (cusps (k + 1))) (wrap360 lon))).isSome := by
      rw [List.find?_isSome]
      exact ⟨i, List.mem_finRange i, (hp i).2 hi⟩
    obtain ⟨j, hj⟩ := Option.isSome_iff_exists.1 hsome
    have hpj : arc_mem (cusps j) (cusps (j + 1)) lon := by
      refine (hp j).1 ?_
      exact List.find?_some
        (p := fun k => cusp_arc_test (wrap360 (cusps k))
          (wrap360 (cusps (k + 1))) (wrap360 lon)) hj
    have hij : j = i := by
      rcases lt_trichotomy j i with h | h | h
      · exact (huniq j i h hpj hi).elim
      · exact h
      · exact (huniq i j h hi hpj).elim
    rw [hij] at hj
    simp only [house_for_longitude]
    rw [hj]
  refine ⟨⟨i0, hi0, ?_⟩, hfun⟩
  intro j hj
  rcases lt_trichotomy j i0 with h | h | h
  · exact (huniq j i0 h hj hi0).elim
  · exact h
  · exact (huniq i0 j h hi0 hj).elim

/-- C7 witness: the even 30°-spaced ring with longitude 45°, which lies in
the arc of house 2 and is assigned house 2. -/
theorem house_total_exclusive_witness :
    IsCuspRing cusps_w ∧ (0 : ℚ) ≤ 45 ∧ (45 : ℚ) < 360 ∧
    arc_mem (cusps_w 1) (cusps_w (1 + 1)) 45 ∧
    house_for_longitude cusps_w 45 = 2 := by
  have hring : IsCuspRing cusps_w := by with_unfolding_all decide
  have harc : arc_mem (cusps_w 1) (cusps_w (1 + 1)) 45 := by
    with_unfolding_all decide
  exact ⟨hring, by norm_num, by norm_num, harc,
    (house_total_exclusive cusps_w 45 hring (by norm_num) (by norm_num)).2 1
      harc⟩
